import Mathlib

/-!
Shallow embedding of the master liveness tracker and deactivation-cascade
coordinator of `src/master/buildbot/data/masters.py` (class `Master`), over
a spec-modelled persistent store (§6 of the spec).

The store adapter (master records, atomic CAS state transition, queries over
builds/steps/logs/build-requests, and the finalize/unclaim mutations) is not
part of the repository sources; it is modelled from the spec's Store Adapter
contract.  The control flow (`masterActive`, `masterStopped`, `expireMasters`,
`_masterDeactivated`, `_masterDeactivatedHousekeeping`) is translated from the
source.  Every externally visible action (observer fan-out call, finalize
mutation, bulk unclaim, event emission) is recorded in a chronological trace
of `Ev` entries so that ordering and exactly-once properties can be stated.
-/

namespace Buildbot

/-- Modelled from the spec: a MasterRecord with immutable `id`/`name` and
mutable `active`/`last_active` (§3).  Timestamps are integers (epoch). -/
structure MasterRecord where
  id : Nat
  name : String
  active : Bool
  last_active : Option Int
deriving DecidableEq, Repr

/-- Modelled from the spec: a BuildRecord owned via `masterid`, with a
`complete` flag and a `results` field unset while running (§3). -/
structure BuildRecord where
  buildid : Nat
  masterid : Nat
  complete : Bool
  results : Option Nat
deriving DecidableEq, Repr

/-- Modelled from the spec: a StepRecord, child of a BuildRecord, whose
`results` field is unset while the step is open (§3). -/
structure StepRecord where
  stepid : Nat
  buildid : Nat
  results : Option Nat
  hidden : Bool
deriving DecidableEq, Repr

/-- Modelled from the spec: a LogRecord, child of a StepRecord, with a
`complete` flag (§3). -/
structure LogRecord where
  logid : Nat
  stepid : Nat
  complete : Bool
deriving DecidableEq, Repr

/-- Modelled from the spec: a WorkRequest (build request) that may be
`claimed` by a master id and has a `complete` flag (§3). -/
structure BuildRequest where
  buildrequestid : Nat
  complete : Bool
  claimed : Option Nat
deriving DecidableEq, Repr

/-- Modelled from the spec: the persistent store shared by all masters,
holding the five record collections of §3. -/
structure Store where
  masters : List MasterRecord
  builds : List BuildRecord
  steps : List StepRecord
  logs : List LogRecord
  buildrequests : List BuildRequest
deriving DecidableEq, Repr

/-- Modelled from the spec: the sentinel "retry" result
(`from buildbot.process.results import RETRY`; the numeric value is
irrelevant to every claim, only its use as the finalization result). -/
def RETRY : Nat := 5

-- time, in minutes, after which a master that hasn't checked in will be
-- marked as inactive (src/master/buildbot/data/masters.py line 34)
def EXPIRE_MINUTES : Nat := 10

/-- Chronological trace entry for every externally visible action performed
by the data-layer code: observer fan-out calls, finalize mutations, the bulk
unclaim, and `produceEvent` emissions. -/
inductive Ev where
  | notify (observer : String) (masterid : Nat)
  | finishLog (logid : Nat)
  | finishStep (stepid : Nat) (results : Nat) (hidden : Bool)
  | finishBuild (buildid : Nat) (results : Nat)
  | unclaim (brids : List Nat)
  | produceEvent (masterid : Nat) (name : String) (active : Bool) (kind : String)
deriving DecidableEq, Repr

/-- Whether a trace entry is one of the three finalize mutations. -/
def Ev.isFinish : Ev → Bool
  | .finishLog _ => true
  | .finishStep _ _ _ => true
  | .finishBuild _ _ => true
  | _ => false

/-- Whether a trace entry is a `produceEvent` emission. -/
def Ev.isProduce : Ev → Bool
  | .produceEvent _ _ _ _ => true
  | _ => false

/-- Whether a trace entry is a bulk work-request release. -/
def Ev.isUnclaim : Ev → Bool
  | .unclaim _ => true
  | _ => false

/-- Modelled from the spec: `setMasterState(id, active) -> changed`, the
store's atomic compare-and-set on the `active` column (§6); an unknown id is
a no-op returning `changed = false` (§4.1/§7 NotFound). -/
def setMasterState (s : Store) (masterid : Nat) (active : Bool) : Bool × Store :=
  match s.masters.find? (fun m => m.id == masterid) with
  | none => (false, s)
  | some m =>
    if m.active == active then (false, s)
    else
      (true, { s with
        masters := s.masters.map (fun m2 =>
          if m2.id == masterid then { m2 with active := active } else m2) })

/-- Modelled from the spec: `getBuilds(masterid, complete=false)` (§6); the
query the cascade issues with filters `masterid eq` and `complete eq false`. -/
def getBuilds (s : Store) (masterid : Nat) : List BuildRecord :=
  s.builds.filter (fun b => b.masterid == masterid && b.complete == false)

/-- Modelled from the spec: `getSteps(buildid, results=unset)` (§6); the
query the cascade issues with filter `results eq None`. -/
def getSteps (s : Store) (buildid : Nat) : List StepRecord :=
  s.steps.filter (fun st => st.buildid == buildid && st.results == none)

/-- Modelled from the spec: `getLogs(stepid, complete=false)` (§6). -/
def getLogs (s : Store) (stepid : Nat) : List LogRecord :=
  s.logs.filter (fun l => l.stepid == stepid && l.complete == false)

/-- Modelled from the spec: `getWorkRequests(complete=false, claimedBy=id)`
(§6), i.e. `db.buildrequests.getBuildRequests(complete=False, claimed=id)`. -/
def getBuildRequests (s : Store) (masterid : Nat) : List BuildRequest :=
  s.buildrequests.filter (fun br => br.complete == false && br.claimed == some masterid)

/-- Modelled from the spec: `finishLog(logid)` marks the log complete (§6). -/
def finishLog (s : Store) (logid : Nat) : Store :=
  { s with logs := s.logs.map (fun l =>
      if l.logid == logid then { l with complete := true } else l) }

/-- Modelled from the spec: `finishStep(stepid, results, hidden)` closes the
step with the given result (§6). -/
def finishStep (s : Store) (stepid : Nat) (results : Nat) (hidden : Bool) : Store :=
  { s with steps := s.steps.map (fun st =>
      if st.stepid == stepid then { st with results := some results, hidden := hidden } else st) }

/-- Modelled from the spec: `finishBuild(buildid, results)` marks the build
complete with the given result (§6). -/
def finishBuild (s : Store) (buildid : Nat) (results : Nat) : Store :=
  { s with builds := s.builds.map (fun b =>
      if b.buildid == buildid then { b with complete := true, results := some results } else b) }

/-- Modelled from the spec: `releaseWorkRequests(ids)` /
`unclaimBuildRequests(brids)`, the single bulk claim-release (§6). -/
def unclaimBuildRequests (s : Store) (brids : List Nat) : Store :=
  { s with buildrequests := s.buildrequests.map (fun br =>
      if brids.contains br.buildrequestid then { br with claimed := none } else br) }

/-- The `for _log in logs: finishLog(...)` inner loop of
`_masterDeactivatedHousekeeping` (masters.py lines 162-163): finalize each
queried log in order, returning the new store and the emitted trace. -/
def finishLogsLoop (ls : List LogRecord) (s : Store) : Store × List Ev :=
  match ls with
  | [] => (s, [])
  | l :: rest =>
    let s1 := finishLog s l.logid
    let r := finishLogsLoop rest s1
    (r.1, Ev.finishLog l.logid :: r.2)

/-- The `for step in steps:` loop of `_masterDeactivatedHousekeeping`
(masters.py lines 156-166): for each open step, query and finalize its open
logs, then finalize the step with `results=RETRY, hidden=False`. -/
def finishStepsLoop (sts : List StepRecord) (s : Store) : Store × List Ev :=
  match sts with
  | [] => (s, [])
  | st :: rest =>
    let r1 := finishLogsLoop (getLogs s st.stepid) s
    let s2 := finishStep r1.1 st.stepid RETRY false
    let r3 := finishStepsLoop rest s2
    (r3.1, r1.2 ++ Ev.finishStep st.stepid RETRY false :: r3.2)

/-- The `for build in builds:` loop of `_masterDeactivatedHousekeeping`
(masters.py lines 150-168): for each incomplete build of the master, query
its open steps, finalize them (logs first), then finalize the build with
`results=RETRY`. -/
def finishBuildsLoop (bs : List BuildRecord) (s : Store) : Store × List Ev :=
  match bs with
  | [] => (s, [])
  | b :: rest =>
    let r1 := finishStepsLoop (getSteps s b.buildid) s
    let s2 := finishBuild r1.1 b.buildid RETRY
    let r3 := finishBuildsLoop rest s2
    (r3.1, r1.2 ++ Ev.finishBuild b.buildid RETRY :: r3.2)

/-- `Master._masterDeactivatedHousekeeping` (masters.py lines 132-176): the
observer fan-out (worker, builder, scheduler, changesource, in that order),
then the build/step/log finalization cascade, then the bulk unclaim of the
build requests still claimed by the deactivated master. -/
def masterDeactivatedHousekeeping (s : Store) (masterid : Nat) (_name : String) :
    Store × List Ev :=
  let obs := [Ev.notify "worker" masterid, Ev.notify "builder" masterid,
    Ev.notify "scheduler" masterid, Ev.notify "changesource" masterid]
  let r1 := finishBuildsLoop (getBuilds s masterid) s
  let brids := (getBuildRequests r1.1 masterid).map (fun br => br.buildrequestid)
  (unclaimBuildRequests r1.1 brids, obs ++ r1.2 ++ [Ev.unclaim brids])

/-- `Master._masterDeactivated` (masters.py lines 178-182): run the
housekeeping cascade, then `produceEvent({masterid, name, active: False},
'stopped')` — the spec's "deactivated" notification. -/
def masterDeactivated (s : Store) (masterid : Nat) (name : String) : Store × List Ev :=
  let r := masterDeactivatedHousekeeping s masterid name
  (r.1, r.2 ++ [Ev.produceEvent masterid name false "stopped"])

/-- `Master.masterStopped` (masters.py lines 125-130), the spec's
`recordStop`: atomically set `active = false`; on a real transition run
`_masterDeactivated`.  The returned Bool is the CAS outcome `deactivated`. -/
def masterStopped (s : Store) (name : String) (masterid : Nat) :
    Bool × Store × List Ev :=
  let r := setMasterState s masterid false
  if r.1 then
    let r2 := masterDeactivated r.2 masterid name
    (true, r2.1, r2.2)
  else (false, r.2, [])

/-- `Master.masterActive` (masters.py lines 102-107), the spec's
`registerHeartbeat`: atomically set `active = true`; on a real transition
`produceEvent({masterid, name, active: True}, 'started')` — the spec's
"activated" notification.  The returned Bool is the CAS outcome. -/
def masterActive (s : Store) (name : String) (masterid : Nat) :
    Bool × Store × List Ev :=
  let r := setMasterState s masterid true
  if r.1 then
    (true, r.2, [Ev.produceEvent masterid name true "started"])
  else (false, r.2, [])

/-- Whether the scanner's guard at masters.py line 115 skips a master:
`m.last_active is not None and m.last_active >= too_old`. -/
def masterFresh (m : MasterRecord) (too_old : Int) : Bool :=
  match m.last_active with
  | some t => too_old ≤ t
  | none => false

/-- The `for m in masters:` loop of `Master.expireMasters` (masters.py lines
114-123): skip fresh masters; otherwise CAS the master inactive and, on a
real transition, run `_masterDeactivated`; on a no-op transition with
`forceHouseKeeping`, run the silent `_masterDeactivatedHousekeeping`. -/
def expireLoop (ms : List MasterRecord) (too_old : Int) (force : Bool) (s : Store) :
    Store × List Ev :=
  match ms with
  | [] => (s, [])
  | m :: rest =>
    if masterFresh m too_old then expireLoop rest too_old force s
    else
      let r := setMasterState s m.id false
      if r.1 then
        let r2 := masterDeactivated r.2 m.id m.name
        let r3 := expireLoop rest too_old force r2.1
        (r3.1, r2.2 ++ r3.2)
      else if force then
        let r2 := masterDeactivatedHousekeeping r.2 m.id m.name
        let r3 := expireLoop rest too_old force r2.1
        (r3.1, r2.2 ++ r3.2)
      else expireLoop rest too_old force r.2

/-- `Master.expireMasters` (masters.py lines 109-123): compute
`too_old = now - 60 * EXPIRE_MINUTES`, snapshot the master list, and run the
expiry loop over it. -/
def expireMasters (s : Store) (now : Int) (force : Bool) : Store × List Ev :=
  expireLoop s.masters (now - 60 * (EXPIRE_MINUTES : Int)) force s

/-! ### Failure-aware variant of the cascade

Every `yield` in `_masterDeactivatedHousekeeping` awaits a Deferred that may
fail; with `inlineCallbacks`, a failure raises at the `yield` point and the
rest of the generator does not run (there is no try/except in the source).
The `E`-suffixed definitions model this: an oracle `fails` says which
operations raise; a raising operation performs no mutation, and the
already-performed mutations and already-emitted trace are propagated in the
`error` payload. -/

/-- A store or observer operation awaited by the cascade; each is a
potential failure point. -/
inductive Op where
  | notifyWorker (masterid : Nat)
  | notifyBuilder (masterid : Nat)
  | notifyScheduler (masterid : Nat)
  | notifyChangesource (masterid : Nat)
  | opGetBuilds (masterid : Nat)
  | opGetSteps (buildid : Nat)
  | opGetLogs (stepid : Nat)
  | opFinishLog (logid : Nat)
  | opFinishStep (stepid : Nat)
  | opFinishBuild (buildid : Nat)
  | opGetBuildRequests (masterid : Nat)
  | opUnclaim (brids : List Nat)
deriving DecidableEq, Repr

/-- Store and trace reached by a possibly-failed cascade run. -/
def exTrace : Except (Store × List Ev) (Store × List Ev) → List Ev
  | .ok r => r.2
  | .error r => r.2

/-- Failure-aware `for _log in logs` loop. -/
def finishLogsLoopE (fails : Op → Bool) (ls : List LogRecord) (s : Store) :
    Except (Store × List Ev) (Store × List Ev) :=
  match ls with
  | [] => .ok (s, [])
  | l :: rest =>
    if fails (.opFinishLog l.logid) then .error (s, [])
    else
      match finishLogsLoopE fails rest (finishLog s l.logid) with
      | .ok r => .ok (r.1, Ev.finishLog l.logid :: r.2)
      | .error r => .error (r.1, Ev.finishLog l.logid :: r.2)

/-- Failure-aware `for step in steps` loop. -/
def finishStepsLoopE (fails : Op → Bool) (sts : List StepRecord) (s : Store) :
    Except (Store × List Ev) (Store × List Ev) :=
  match sts with
  | [] => .ok (s, [])
  | st :: rest =>
    if fails (.opGetLogs st.stepid) then .error (s, [])
    else
      match finishLogsLoopE fails (getLogs s st.stepid) s with
      | .error r => .error r
      | .ok r1 =>
        if fails (.opFinishStep st.stepid) then .error r1
        else
          match finishStepsLoopE fails rest (finishStep r1.1 st.stepid RETRY false) with
          | .ok r3 => .ok (r3.1, r1.2 ++ Ev.finishStep st.stepid RETRY false :: r3.2)
          | .error r3 => .error (r3.1, r1.2 ++ Ev.finishStep st.stepid RETRY false :: r3.2)

/-- Failure-aware `for build in builds` loop. -/
def finishBuildsLoopE (fails : Op → Bool) (bs : List BuildRecord) (s : Store) :
    Except (Store × List Ev) (Store × List Ev) :=
  match bs with
  | [] => .ok (s, [])
  | b :: rest =>
    if fails (.opGetSteps b.buildid) then .error (s, [])
    else
      match finishStepsLoopE fails (getSteps s b.buildid) s with
      | .error r => .error r
      | .ok r1 =>
        if fails (.opFinishBuild b.buildid) then .error r1
        else
          match finishBuildsLoopE fails rest (finishBuild r1.1 b.buildid RETRY) with
          | .ok r3 => .ok (r3.1, r1.2 ++ Ev.finishBuild b.buildid RETRY :: r3.2)
          | .error r3 => .error (r3.1, r1.2 ++ Ev.finishBuild b.buildid RETRY :: r3.2)

/-- Failure-aware `_masterDeactivatedHousekeeping`: observer fan-out in
order, then the build cascade, then the query and bulk release of the
master's build requests; any raising operation aborts the rest. -/
def masterDeactivatedHousekeepingE (fails : Op → Bool) (s : Store) (masterid : Nat)
    (_name : String) : Except (Store × List Ev) (Store × List Ev) :=
  if fails (.notifyWorker masterid) then .error (s, [])
  else if fails (.notifyBuilder masterid) then .error (s, [Ev.notify "worker" masterid])
  else if fails (.notifyScheduler masterid) then
    .error (s, [Ev.notify "worker" masterid, Ev.notify "builder" masterid])
  else if fails (.notifyChangesource masterid) then
    .error (s, [Ev.notify "worker" masterid, Ev.notify "builder" masterid,
      Ev.notify "scheduler" masterid])
  else
    let obs := [Ev.notify "worker" masterid, Ev.notify "builder" masterid,
      Ev.notify "scheduler" masterid, Ev.notify "changesource" masterid]
    if fails (.opGetBuilds masterid) then .error (s, obs)
    else
      match finishBuildsLoopE fails (getBuilds s masterid) s with
      | .error r => .error (r.1, obs ++ r.2)
      | .ok r1 =>
        if fails (.opGetBuildRequests masterid) then .error (r1.1, obs ++ r1.2)
        else
          let brids := (getBuildRequests r1.1 masterid).map (fun br => br.buildrequestid)
          if fails (.opUnclaim brids) then .error (r1.1, obs ++ r1.2)
          else .ok (unclaimBuildRequests r1.1 brids, obs ++ r1.2 ++ [Ev.unclaim brids])

/-- Failure-aware `_masterDeactivated`: the 'stopped' notification is
emitted only if the whole housekeeping cascade completed. -/
def masterDeactivatedE (fails : Op → Bool) (s : Store) (masterid : Nat) (name : String) :
    Except (Store × List Ev) (Store × List Ev) :=
  match masterDeactivatedHousekeepingE fails s masterid name with
  | .error r => .error r
  | .ok r => .ok (r.1, r.2 ++ [Ev.produceEvent masterid name false "stopped"])

/-- Failure-aware `masterStopped`. -/
def masterStoppedE (fails : Op → Bool) (s : Store) (name : String) (masterid : Nat) :
    Except (Store × List Ev) (Store × List Ev) :=
  let r := setMasterState s masterid false
  if r.1 then masterDeactivatedE fails r.2 masterid name
  else .ok (r.2, [])

/-! ## Frame lemmas: each store mutation touches exactly one collection -/

@[simp] theorem finishLog_masters (s : Store) (lid : Nat) :
    (finishLog s lid).masters = s.masters := rfl

@[simp] theorem finishLog_builds (s : Store) (lid : Nat) :
    (finishLog s lid).builds = s.builds := rfl

@[simp] theorem finishLog_steps (s : Store) (lid : Nat) :
    (finishLog s lid).steps = s.steps := rfl

@[simp] theorem finishLog_buildrequests (s : Store) (lid : Nat) :
    (finishLog s lid).buildrequests = s.buildrequests := rfl

@[simp] theorem finishStep_masters (s : Store) (sid r : Nat) (h : Bool) :
    (finishStep s sid r h).masters = s.masters := rfl

@[simp] theorem finishStep_builds (s : Store) (sid r : Nat) (h : Bool) :
    (finishStep s sid r h).builds = s.builds := rfl

@[simp] theorem finishStep_logs (s : Store) (sid r : Nat) (h : Bool) :
    (finishStep s sid r h).logs = s.logs := rfl

@[simp] theorem finishStep_buildrequests (s : Store) (sid r : Nat) (h : Bool) :
    (finishStep s sid r h).buildrequests = s.buildrequests := rfl

@[simp] theorem finishBuild_masters (s : Store) (bid r : Nat) :
    (finishBuild s bid r).masters = s.masters := rfl

@[simp] theorem finishBuild_steps (s : Store) (bid r : Nat) :
    (finishBuild s bid r).steps = s.steps := rfl

@[simp] theorem finishBuild_logs (s : Store) (bid r : Nat) :
    (finishBuild s bid r).logs = s.logs := rfl

@[simp] theorem finishBuild_buildrequests (s : Store) (bid r : Nat) :
    (finishBuild s bid r).buildrequests = s.buildrequests := rfl

@[simp] theorem unclaimBuildRequests_masters (s : Store) (brids : List Nat) :
    (unclaimBuildRequests s brids).masters = s.masters := rfl

@[simp] theorem unclaimBuildRequests_builds (s : Store) (brids : List Nat) :
    (unclaimBuildRequests s brids).builds = s.builds := rfl

@[simp] theorem unclaimBuildRequests_steps (s : Store) (brids : List Nat) :
    (unclaimBuildRequests s brids).steps = s.steps := rfl

@[simp] theorem unclaimBuildRequests_logs (s : Store) (brids : List Nat) :
    (unclaimBuildRequests s brids).logs = s.logs := rfl

/-! ## Frame lemmas for the cascade loops -/

@[simp] theorem finishLogsLoop_masters (ls : List LogRecord) (s : Store) :
    (finishLogsLoop ls s).1.masters = s.masters := by
  induction ls generalizing s with
  | nil => rfl
  | cons l rest ih => simp [finishLogsLoop, ih]

@[simp] theorem finishLogsLoop_builds (ls : List LogRecord) (s : Store) :
    (finishLogsLoop ls s).1.builds = s.builds := by
  induction ls generalizing s with
  | nil => rfl
  | cons l rest ih => simp [finishLogsLoop, ih]

@[simp] theorem finishLogsLoop_steps (ls : List LogRecord) (s : Store) :
    (finishLogsLoop ls s).1.steps = s.steps := by
  induction ls generalizing s with
  | nil => rfl
  | cons l rest ih => simp [finishLogsLoop, ih]

@[simp] theorem finishLogsLoop_buildrequests (ls : List LogRecord) (s : Store) :
    (finishLogsLoop ls s).1.buildrequests = s.buildrequests := by
  induction ls generalizing s with
  | nil => rfl
  | cons l rest ih => simp [finishLogsLoop, ih]

@[simp] theorem finishStepsLoop_masters (sts : List StepRecord) (s : Store) :
    (finishStepsLoop sts s).1.masters = s.masters := by
  induction sts generalizing s with
  | nil => rfl
  | cons st rest ih => simp [finishStepsLoop, ih]

@[simp] theorem finishStepsLoop_builds (sts : List StepRecord) (s : Store) :
    (finishStepsLoop sts s).1.builds = s.builds := by
  induction sts generalizing s with
  | nil => rfl
  | cons st rest ih => simp [finishStepsLoop, ih]

@[simp] theorem finishStepsLoop_buildrequests (sts : List StepRecord) (s : Store) :
    (finishStepsLoop sts s).1.buildrequests = s.buildrequests := by
  induction sts generalizing s with
  | nil => rfl
  | cons st rest ih => simp [finishStepsLoop, ih]

@[simp] theorem finishBuildsLoop_masters (bs : List BuildRecord) (s : Store) :
    (finishBuildsLoop bs s).1.masters = s.masters := by
  induction bs generalizing s with
  | nil => rfl
  | cons b rest ih => simp [finishBuildsLoop, ih]

@[simp] theorem finishBuildsLoop_buildrequests (bs : List BuildRecord) (s : Store) :
    (finishBuildsLoop bs s).1.buildrequests = s.buildrequests := by
  induction bs generalizing s with
  | nil => rfl
  | cons b rest ih => simp [finishBuildsLoop, ih]

@[simp] theorem masterDeactivatedHousekeeping_masters (s : Store) (mid : Nat) (nm : String) :
    (masterDeactivatedHousekeeping s mid nm).1.masters = s.masters := by
  simp [masterDeactivatedHousekeeping]

@[simp] theorem masterDeactivated_masters (s : Store) (mid : Nat) (nm : String) :
    (masterDeactivated s mid nm).1.masters = s.masters := by
  simp [masterDeactivated]

/-! ## Build finalization: after the loop, no incomplete build of the master -/

theorem finishBuildsLoop_completes (mid : Nat) (bs : List BuildRecord) :
    ∀ (s : Store),
    (∀ b ∈ s.builds, b.masterid = mid → b.complete = false →
      b.buildid ∈ bs.map (fun x => x.buildid)) →
    ∀ b' ∈ (finishBuildsLoop bs s).1.builds, b'.masterid = mid → b'.complete = true := by
  induction bs with
  | nil =>
    intro s H b' hb' hmid
    cases hcomp : b'.complete with
    | true => rfl
    | false =>
      have := H b' hb' hmid hcomp
      simp at this
  | cons b rest ih =>
    intro s H b' hb' hmid
    simp only [finishBuildsLoop] at hb'
    refine ih _ ?_ b' hb' hmid
    intro b2 hb2 hmid2 hcomp2
    simp only [finishBuild, finishStepsLoop_builds] at hb2
    rcases List.mem_map.mp hb2 with ⟨b0, hb0, hup⟩
    by_cases hbid : (b0.buildid == b.buildid) = true
    · rw [if_pos hbid] at hup
      rw [← hup] at hcomp2
      simp at hcomp2
    · rw [if_neg hbid] at hup
      subst hup
      have hmem := H b0 hb0 hmid2 hcomp2
      simp only [List.map_cons, List.mem_cons] at hmem
      rcases hmem with heq | hmem
      · exact absurd (by simp [heq]) hbid
      · exact hmem

/-- After `_masterDeactivatedHousekeeping`, the cascade's own build query
returns nothing: no build of the master is still incomplete. -/
theorem hk_no_incomplete_builds (s : Store) (mid : Nat) (nm : String) :
    getBuilds (masterDeactivatedHousekeeping s mid nm).1 mid = [] := by
  rw [getBuilds, List.filter_eq_nil_iff]
  intro b' hb'
  simp only [masterDeactivatedHousekeeping, unclaimBuildRequests_builds] at hb'
  have hcomp : b'.masterid = mid → b'.complete = true := by
    intro hmid
    refine finishBuildsLoop_completes mid (getBuilds s mid) s ?_ b' hb' hmid
    intro b hb hbmid hbcomp
    refine List.mem_map.mpr ⟨b, ?_, rfl⟩
    rw [getBuilds]
    exact List.mem_filter.mpr ⟨hb, by simp [hbmid, hbcomp]⟩
  by_cases hmid : b'.masterid = mid
  · simp [hcomp hmid]
  · simp [hmid]

/-! ## Work-request release -/

/-- After `_masterDeactivatedHousekeeping`, the cascade's own work-request
query returns nothing: no incomplete request is still claimed by the master. -/
theorem hk_no_claimed_requests (s : Store) (mid : Nat) (nm : String) :
    getBuildRequests (masterDeactivatedHousekeeping s mid nm).1 mid = [] := by
  rw [getBuildRequests, List.filter_eq_nil_iff]
  intro br' hbr'
  simp only [masterDeactivatedHousekeeping, unclaimBuildRequests] at hbr'
  rcases List.mem_map.mp hbr' with ⟨br0, hbr0, hup⟩
  by_cases hin :
      (((getBuildRequests (finishBuildsLoop (getBuilds s mid) s).1 mid).map
        (fun br => br.buildrequestid)).contains br0.buildrequestid) = true
  · rw [if_pos hin] at hup
    rw [← hup]
    simp
  · rw [if_neg hin] at hup
    subst hup
    intro hcontra
    simp only [Bool.and_eq_true, beq_iff_eq] at hcontra
    apply hin
    refine List.mem_map.mpr ⟨br0, ?_, rfl⟩ |> List.elem_eq_true_of_mem
    rw [getBuildRequests]
    refine List.mem_filter.mpr ⟨hbr0, ?_⟩
    simp [hcontra.1, hcontra.2]

theorem unclaimBuildRequests_nil (s : Store) : unclaimBuildRequests s [] = s := by
  simp [unclaimBuildRequests]

/-- Running the housekeeping cascade on a state it already produced changes
nothing and performs no finalize/release mutation: the second run's trace is
the observer fan-out plus an unclaim of the empty id list. -/
theorem hk_idempotent (s : Store) (mid : Nat) (nm : String) :
    masterDeactivatedHousekeeping (masterDeactivatedHousekeeping s mid nm).1 mid nm
      = ((masterDeactivatedHousekeeping s mid nm).1,
         [Ev.notify "worker" mid, Ev.notify "builder" mid, Ev.notify "scheduler" mid,
          Ev.notify "changesource" mid, Ev.unclaim []]) := by
  conv_lhs => rw [masterDeactivatedHousekeeping]
  rw [hk_no_incomplete_builds]
  simp only [finishBuildsLoop]
  rw [hk_no_claimed_requests]
  simp [unclaimBuildRequests_nil]

/-! ## Trace-content lemmas -/

theorem finishLogsLoop_trace (ls : List LogRecord) (s : Store) :
    (finishLogsLoop ls s).2 = ls.map (fun l => Ev.finishLog l.logid) := by
  induction ls generalizing s with
  | nil => rfl
  | cons l rest ih => simp [finishLogsLoop, ih]

theorem finishStepsLoop_trace_finish (sts : List StepRecord) (s : Store) :
    ∀ e ∈ (finishStepsLoop sts s).2, e.isFinish = true := by
  induction sts generalizing s with
  | nil => intro e he; simp [finishStepsLoop] at he
  | cons st rest ih =>
    intro e he
    simp only [finishStepsLoop, List.mem_append, List.mem_cons] at he
    rcases he with he | he | he
    · rw [finishLogsLoop_trace] at he
      rcases List.mem_map.mp he with ⟨l, _, rfl⟩
      rfl
    · rw [he]; rfl
    · exact ih _ e he

theorem finishBuildsLoop_trace_finish (bs : List BuildRecord) (s : Store) :
    ∀ e ∈ (finishBuildsLoop bs s).2, e.isFinish = true := by
  induction bs generalizing s with
  | nil => intro e he; simp [finishBuildsLoop] at he
  | cons b rest ih =>
    intro e he
    simp only [finishBuildsLoop, List.mem_append, List.mem_cons] at he
    rcases he with he | he | he
    · exact finishStepsLoop_trace_finish _ _ e he
    · rw [he]; rfl
    · exact ih _ e he

theorem hk_trace_shape (s : Store) (mid : Nat) (nm : String) :
    (masterDeactivatedHousekeeping s mid nm).2
      = [Ev.notify "worker" mid, Ev.notify "builder" mid, Ev.notify "scheduler" mid,
         Ev.notify "changesource" mid]
        ++ (finishBuildsLoop (getBuilds s mid) s).2
        ++ [Ev.unclaim ((getBuildRequests (finishBuildsLoop (getBuilds s mid) s).1 mid).map
            (fun br => br.buildrequestid))] := by
  rfl

/-- No `produceEvent` is ever emitted inside the housekeeping cascade:
forced housekeeping runs silently. -/
theorem hk_trace_no_produce (s : Store) (mid : Nat) (nm : String) :
    ∀ e ∈ (masterDeactivatedHousekeeping s mid nm).2, e.isProduce = false := by
  intro e he
  rw [hk_trace_shape] at he
  simp only [List.mem_append, List.mem_cons, List.mem_singleton, List.not_mem_nil,
    or_false] at he
  rcases he with ((rfl | rfl | rfl | rfl) | he) | rfl
  · rfl
  · rfl
  · rfl
  · rfl
  · have := finishBuildsLoop_trace_finish _ _ e he
    cases e <;> simp_all [Ev.isFinish, Ev.isProduce]
  · rfl

/-- The housekeeping cascade's observer fan-out calls the worker manager
exactly once (the cascade-invocation marker used by several claims). -/
theorem hk_trace_worker_count (s : Store) (mid : Nat) (nm : String) :
    (masterDeactivatedHousekeeping s mid nm).2.count (Ev.notify "worker" mid) = 1 := by
  rw [hk_trace_shape]
  simp only [List.count_append, List.count_cons, List.count_nil]
  have h0 : (finishBuildsLoop (getBuilds s mid) s).2.count (Ev.notify "worker" mid) = 0 := by
    rw [List.count_eq_zero]
    intro hmem
    have := finishBuildsLoop_trace_finish _ _ _ hmem
    simp [Ev.isFinish] at this
  rw [h0]
  simp

/-- `_masterDeactivated` emits exactly the housekeeping trace followed by the
single 'stopped' (spec: "deactivated") notification. -/
theorem masterDeactivated_trace (s : Store) (mid : Nat) (nm : String) :
    (masterDeactivated s mid nm).2
      = (masterDeactivatedHousekeeping s mid nm).2
        ++ [Ev.produceEvent mid nm false "stopped"] := rfl

/-! ## Master-record lemmas: CAS behavior and identity tracking -/

/-- In a master list in which every record carrying m's id is m itself,
the CAS lookup finds exactly m. -/
theorem find?_eq_of_uniq (l : List MasterRecord) (m : MasterRecord)
    (hmem : m ∈ l) (huniq : ∀ rec ∈ l, rec.id = m.id → rec = m) :
    l.find? (fun x => x.id == m.id) = some m := by
  induction l with
  | nil => simp at hmem
  | cons a l ih =>
    by_cases ha : (a.id == m.id) = true
    · simp only [List.find?_cons]
      rw [ha]
      rw [huniq a (List.mem_cons_self a l) (by simpa using ha)]
    · simp only [List.find?_cons]
      rw [Bool.of_not_eq_true ha]
      have hma : m ≠ a := by
        intro h; rw [h] at ha; simp at ha
      refine ih ?_ ?_
      · rcases List.mem_cons.mp hmem with h | h
        · exact absurd h hma
        · exact h
      · intro rec hrec h
        exact huniq rec (List.mem_cons_of_mem a hrec) h

theorem setMasterState_masters_cases (s : Store) (tid : Nat) (b : Bool) :
    (setMasterState s tid b).2.masters = s.masters
    ∨ (setMasterState s tid b).2.masters
        = s.masters.map (fun m2 => if m2.id == tid then { m2 with active := b } else m2) := by
  rw [setMasterState]
  cases hf : s.masters.find? (fun m => m.id == tid) with
  | none => left; rfl
  | some m =>
    by_cases hb : (m.active == b) = true
    · left; simp [hb]
    · right; simp [hb]

/-- CAS on a different id leaves every record carrying m's id untouched. -/
theorem setMasterState_preserves_other (s : Store) (tid : Nat) (b : Bool)
    (m : MasterRecord) (hne : tid ≠ m.id)
    (hmem : m ∈ s.masters) (huniq : ∀ rec ∈ s.masters, rec.id = m.id → rec = m) :
    m ∈ (setMasterState s tid b).2.masters
    ∧ ∀ rec ∈ (setMasterState s tid b).2.masters, rec.id = m.id → rec = m := by
  rcases setMasterState_masters_cases s tid b with h | h
  · rw [h]; exact ⟨hmem, huniq⟩
  · rw [h]
    constructor
    · have : (if (m.id == tid) = true then { m with active := b } else m) = m := by
        rw [if_neg]
        simp only [beq_iff_eq]
        exact fun hc => hne hc.symm
      rw [← this]
      exact List.mem_map_of_mem _ hmem
    · intro rec hrec hid
      rcases List.mem_map.mp hrec with ⟨r0, hr0, hup⟩
      by_cases hr : (r0.id == tid) = true
      · rw [if_pos hr] at hup
        rw [← hup] at hid
        simp only at hid
        have : r0.id = tid := beq_iff_eq.mp hr
        exact absurd (hid ▸ this).symm hne
      · rw [if_neg hr] at hup
        subst hup
        exact huniq r0 hr0 hid

/-- CAS to `false` on an already-inactive master whose id is uniquely held
reports no change and leaves the store untouched. -/
theorem setMasterState_inactive_noop (s : Store) (m : MasterRecord)
    (hmem : m ∈ s.masters) (huniq : ∀ rec ∈ s.masters, rec.id = m.id → rec = m)
    (hina : m.active = false) :
    setMasterState s m.id false = (false, s) := by
  rw [setMasterState, find?_eq_of_uniq s.masters m hmem huniq]
  simp [hina]

/-- CAS to `false` on an active master whose id is uniquely held reports a
change and flips exactly that record. -/
theorem setMasterState_active_flips (s : Store) (m : MasterRecord)
    (hmem : m ∈ s.masters) (huniq : ∀ rec ∈ s.masters, rec.id = m.id → rec = m)
    (hact : m.active = true) :
    setMasterState s m.id false
      = (true, { s with masters := s.masters.map (fun m2 =>
          if m2.id == m.id then { m2 with active := false } else m2) }) := by
  rw [setMasterState, find?_eq_of_uniq s.masters m hmem huniq]
  simp [hact]

/-- After flipping m inactive, the record holding m's id is m-with-active
cleared, and it is still uniquely held. -/
theorem flipped_uniq (s : Store) (m : MasterRecord)
    (hmem : m ∈ s.masters) (huniq : ∀ rec ∈ s.masters, rec.id = m.id → rec = m) :
    { m with active := false } ∈ (s.masters.map (fun m2 =>
        if m2.id == m.id then { m2 with active := false } else m2))
    ∧ ∀ rec ∈ (s.masters.map (fun m2 =>
        if m2.id == m.id then { m2 with active := false } else m2)),
        rec.id = m.id → rec = { m with active := false } := by
  constructor
  · have : (if (m.id == m.id) = true then { m with active := false } else m)
        = { m with active := false } := by simp
    rw [← this]
    exact List.mem_map_of_mem _ hmem
  · intro rec hrec hid
    rcases List.mem_map.mp hrec with ⟨r0, hr0, hup⟩
    by_cases hr : (r0.id == m.id) = true
    · rw [if_pos hr] at hup
      rw [huniq r0 hr0 (by simpa using hr)] at hup
      exact hup.symm
    · rw [if_neg hr] at hup
      subst hup
      exact absurd (by simp [hid]) hr

/-! ## Claim C1 -/

/-- C1: for every master id, calling `masterStopped` (the spec's
`recordStop`) twice in a row for the same master yields `changed = true`
then `changed = false` (the CAS outcome returned in the first component),
and the deactivation cascade runs exactly once — the first call's trace
contains exactly one cascade invocation (marked by its worker-manager
fan-out call) and the second call's trace is empty. -/
theorem C1_recordStop_idempotent_transition (s : Store) (nm : String) (m : MasterRecord)
    (hmem : m ∈ s.masters) (huniq : ∀ rec ∈ s.masters, rec.id = m.id → rec = m)
    (hact : m.active = true) :
    (masterStopped s nm m.id).1 = true
    ∧ (masterStopped s nm m.id).2.2.count (Ev.notify "worker" m.id) = 1
    ∧ (masterStopped (masterStopped s nm m.id).2.1 nm m.id).1 = false
    ∧ (masterStopped (masterStopped s nm m.id).2.1 nm m.id).2.2 = [] := by
  have h1 := setMasterState_active_flips s m hmem huniq hact
  have hms : masterStopped s nm m.id
      = (true, masterDeactivated { s with masters := s.masters.map (fun m2 =>
          if m2.id == m.id then { m2 with active := false } else m2) } m.id nm) := by
    simp [masterStopped, h1]
  have hXmasters : (masterStopped s nm m.id).2.1.masters
      = s.masters.map (fun m2 => if m2.id == m.id then { m2 with active := false } else m2) := by
    rw [hms, masterDeactivated_masters]
  have hflip := flipped_uniq s m hmem huniq
  have hnoop : setMasterState (masterStopped s nm m.id).2.1 m.id false
      = (false, (masterStopped s nm m.id).2.1) := by
    have := setMasterState_inactive_noop (masterStopped s nm m.id).2.1
      { m with active := false } (by rw [hXmasters]; exact hflip.1)
      (by rw [hXmasters]; exact hflip.2) rfl
    exact this
  refine ⟨by rw [hms], ?_, ?_, ?_⟩
  · rw [hms]
    simp only [masterDeactivated_trace, List.count_append]
    rw [hk_trace_worker_count]
    simp
  · obtain ⟨X, hX⟩ : ∃ X, (masterStopped s nm m.id).2.1 = X := ⟨_, rfl⟩
    rw [hX] at hnoop ⊢
    simp [masterStopped, hnoop]
  · obtain ⟨X, hX⟩ : ∃ X, (masterStopped s nm m.id).2.1 = X := ⟨_, rfl⟩
    rw [hX] at hnoop ⊢
    simp [masterStopped, hnoop]

/-- Witness for C1 at a concrete one-master store. -/
theorem C1_recordStop_idempotent_transition_witness :
    (masterStopped ⟨[⟨1, "a", true, some 0⟩], [], [], [], []⟩ "a" 1).1 = true
    ∧ (masterStopped ⟨[⟨1, "a", true, some 0⟩], [], [], [], []⟩ "a" 1).2.2.count
        (Ev.notify "worker" 1) = 1
    ∧ (masterStopped (masterStopped ⟨[⟨1, "a", true, some 0⟩], [], [], [], []⟩ "a" 1).2.1
        "a" 1).1 = false
    ∧ (masterStopped (masterStopped ⟨[⟨1, "a", true, some 0⟩], [], [], [], []⟩ "a" 1).2.1
        "a" 1).2.2 = [] :=
  C1_recordStop_idempotent_transition ⟨[⟨1, "a", true, some 0⟩], [], [], [], []⟩ "a"
    ⟨1, "a", true, some 0⟩ (by decide) (by decide) rfl

/-! ## Claims C2, C5, C7 -/

/-- C2: for every master id run through the deactivation cascade, after the
cascade completes there exist zero BuildRecords with `masterid` equal to
that id and `complete = false`: every incomplete build the master owned has
been finalized. -/
theorem C2_no_orphaned_incomplete_builds (s : Store) (mid : Nat) (nm : String) :
    (masterDeactivatedHousekeeping s mid nm).1.builds.filter
      (fun b => b.masterid == mid && b.complete == false) = [] := by
  have h := hk_no_incomplete_builds s mid nm
  rwa [getBuilds] at h

/-- C5: the deactivation cascade is idempotent: run immediately after a
completed first run it leaves the store identical, and performs zero
finalize/release mutations — the second run's trace is only the observer
fan-out plus a bulk release of the empty id list, because the query
predicates exclude the already-finalized rows. -/
theorem C5_cascade_idempotent (s : Store) (mid : Nat) (nm : String) :
    masterDeactivatedHousekeeping (masterDeactivatedHousekeeping s mid nm).1 mid nm
      = ((masterDeactivatedHousekeeping s mid nm).1,
         [Ev.notify "worker" mid, Ev.notify "builder" mid, Ev.notify "scheduler" mid,
          Ev.notify "changesource" mid, Ev.unclaim []]) :=
  hk_idempotent s mid nm

/-- C7: after the cascade for a master id, no incomplete WorkRequest is
still claimed by that id (all were released, in a single bulk release
event), and every request claimed by a different master (or unclaimed) is
left completely unchanged. -/
theorem C7_work_request_release_and_frame (s : Store) (mid : Nat) (nm : String)
    (hnd : (s.buildrequests.map (fun br => br.buildrequestid)).Nodup) :
    ((masterDeactivatedHousekeeping s mid nm).1.buildrequests.filter
      (fun br => br.complete == false && br.claimed == some mid) = [])
    ∧ (∀ br ∈ s.buildrequests, br.claimed ≠ some mid →
        br ∈ (masterDeactivatedHousekeeping s mid nm).1.buildrequests)
    ∧ (∃ ids, ((masterDeactivatedHousekeeping s mid nm).2.filter Ev.isUnclaim)
        = [Ev.unclaim ids]) := by
  refine ⟨?_, ?_, ?_⟩
  · have h := hk_no_claimed_requests s mid nm
    rwa [getBuildRequests] at h
  · intro br hbr hother
    simp only [masterDeactivatedHousekeeping, unclaimBuildRequests,
      finishBuildsLoop_buildrequests]
    have hself : (if (((getBuildRequests (finishBuildsLoop (getBuilds s mid) s).1 mid).map
        (fun br => br.buildrequestid)).contains br.buildrequestid) = true
        then { br with claimed := none } else br) = br := by
      rw [if_neg]
      intro hc
      have hmem := List.mem_of_elem_eq_true hc
      rcases List.mem_map.mp hmem with ⟨q, hq, hqid⟩
      rw [getBuildRequests, finishBuildsLoop_buildrequests] at hq
      rcases List.mem_filter.mp hq with ⟨hqmem, hqpred⟩
      simp only [Bool.and_eq_true, beq_iff_eq] at hqpred
      have : q = br := List.inj_on_of_nodup_map hnd hqmem hbr hqid
      rw [this] at hqpred
      exact hother hqpred.2
    rw [← hself]
    exact List.mem_map_of_mem _ hbr
  · refine ⟨(getBuildRequests (finishBuildsLoop (getBuilds s mid) s).1 mid).map
      (fun br => br.buildrequestid), ?_⟩
    rw [hk_trace_shape]
    rw [List.filter_append, List.filter_append]
    have h1 : [Ev.notify "worker" mid, Ev.notify "builder" mid, Ev.notify "scheduler" mid,
        Ev.notify "changesource" mid].filter Ev.isUnclaim = [] := rfl
    have h2 : (finishBuildsLoop (getBuilds s mid) s).2.filter Ev.isUnclaim = [] := by
      rw [List.filter_eq_nil_iff]
      intro e he
      have := finishBuildsLoop_trace_finish _ _ e he
      cases e <;> simp_all [Ev.isFinish, Ev.isUnclaim]
    rw [h1, h2]
    rfl

/-- Witness for C7 at a concrete store with one request claimed by the
deactivated master and one claimed by a survivor. -/
theorem C7_work_request_release_and_frame_witness :
    ((masterDeactivatedHousekeeping
        ⟨[], [], [], [], [⟨10, false, some 1⟩, ⟨11, false, some 2⟩]⟩ 1 "a").1.buildrequests.filter
      (fun br => br.complete == false && br.claimed == some 1) = [])
    ∧ (∀ br ∈ [BuildRequest.mk 10 false (some 1), BuildRequest.mk 11 false (some 2)],
        br.claimed ≠ some 1 →
        br ∈ (masterDeactivatedHousekeeping
          ⟨[], [], [], [], [⟨10, false, some 1⟩, ⟨11, false, some 2⟩]⟩ 1 "a").1.buildrequests)
    ∧ (∃ ids, ((masterDeactivatedHousekeeping
        ⟨[], [], [], [], [⟨10, false, some 1⟩, ⟨11, false, some 2⟩]⟩ 1 "a").2.filter Ev.isUnclaim)
        = [Ev.unclaim ids]) :=
  C7_work_request_release_and_frame
    ⟨[], [], [], [], [⟨10, false, some 1⟩, ⟨11, false, some 2⟩]⟩ 1 "a" (by decide)

/-! ## Event classification for whole-scan reasoning -/

theorem hk_trace_has_worker (s : Store) (mid : Nat) (nm : String) :
    Ev.notify "worker" mid ∈ (masterDeactivatedHousekeeping s mid nm).2 := by
  rw [hk_trace_shape]
  simp

theorem hk_trace_events (s : Store) (mid : Nat) (nm : String) :
    ∀ e ∈ (masterDeactivatedHousekeeping s mid nm).2,
      (∃ o, e = Ev.notify o mid) ∨ e.isFinish = true ∨ (∃ ids, e = Ev.unclaim ids) := by
  intro e he
  rw [hk_trace_shape] at he
  simp only [List.mem_append, List.mem_cons, List.not_mem_nil, or_false,
    List.mem_singleton] at he
  rcases he with ((rfl | rfl | rfl | rfl) | he) | rfl
  · exact Or.inl ⟨"worker", rfl⟩
  · exact Or.inl ⟨"builder", rfl⟩
  · exact Or.inl ⟨"scheduler", rfl⟩
  · exact Or.inl ⟨"changesource", rfl⟩
  · exact Or.inr (Or.inl (finishBuildsLoop_trace_finish _ _ e he))
  · exact Or.inr (Or.inr ⟨_, rfl⟩)

theorem masterDeactivated_has_stopped (s : Store) (mid : Nat) (nm : String) :
    Ev.produceEvent mid nm false "stopped" ∈ (masterDeactivated s mid nm).2 := by
  rw [masterDeactivated_trace]
  simp

theorem masterDeactivated_has_worker (s : Store) (mid : Nat) (nm : String) :
    Ev.notify "worker" mid ∈ (masterDeactivated s mid nm).2 := by
  rw [masterDeactivated_trace, List.mem_append]
  exact Or.inl (hk_trace_has_worker s mid nm)

/-- Events of a deactivation for master `mid` never mention another id
`xid`: neither as a cascade marker nor as a notification payload. -/
theorem masterDeactivated_trace_other (s : Store) (mid : Nat) (nm : String)
    (xid : Nat) (hne : mid ≠ xid) :
    ∀ e ∈ (masterDeactivated s mid nm).2,
      e ≠ Ev.notify "worker" xid ∧ ∀ nm' a k, e ≠ Ev.produceEvent xid nm' a k := by
  intro e he
  rw [masterDeactivated_trace, List.mem_append] at he
  rcases he with he | he
  · rcases hk_trace_events s mid nm e he with ⟨o, rfl⟩ | hf | ⟨ids, rfl⟩
    · exact ⟨by intro h; simp at h; exact hne h.2, by intro nm' a k h; simp at h⟩
    · cases e <;> simp_all [Ev.isFinish]
    · exact ⟨by simp, by intro nm' a k h; simp at h⟩
  · simp only [List.mem_singleton] at he
    subst he
    exact ⟨by simp, by intro nm' a k h; simp at h; exact hne h.1⟩

/-- Events of a housekeeping run for master `mid` never mention another id
`xid`, and contain no notification at all. -/
theorem hk_trace_other (s : Store) (mid : Nat) (nm : String)
    (xid : Nat) (hne : mid ≠ xid) :
    ∀ e ∈ (masterDeactivatedHousekeeping s mid nm).2,
      e ≠ Ev.notify "worker" xid ∧ ∀ nm' a k, e ≠ Ev.produceEvent xid nm' a k := by
  intro e he
  rcases hk_trace_events s mid nm e he with ⟨o, rfl⟩ | hf | ⟨ids, rfl⟩
  · exact ⟨by intro h; simp at h; exact hne h.2, by intro nm' a k h; simp at h⟩
  · cases e <;> simp_all [Ev.isFinish]
  · exact ⟨by simp, by intro nm' a k h; simp at h⟩

/-- A master whose `last_active` is unset never passes the freshness guard. -/
theorem masterFresh_none (m : MasterRecord) (t : Int) (h : m.last_active = none) :
    masterFresh m t = false := by
  rw [masterFresh, h]

/-! ## Scanner loop lemmas -/

/-- A master whose id is only carried by fresh snapshot entries is left
untouched by a whole scanner pass, and the pass emits no cascade marker and
no notification for its id. -/
theorem expireLoop_untouched (m : MasterRecord) :
    ∀ (ms : List MasterRecord) (to_ : Int) (force : Bool) (s : Store),
    m ∈ s.masters →
    (∀ rec ∈ s.masters, rec.id = m.id → rec = m) →
    (∀ m' ∈ ms, m'.id = m.id → masterFresh m' to_ = true) →
    (m ∈ (expireLoop ms to_ force s).1.masters
      ∧ ∀ rec ∈ (expireLoop ms to_ force s).1.masters, rec.id = m.id → rec = m)
    ∧ ∀ e ∈ (expireLoop ms to_ force s).2,
        e ≠ Ev.notify "worker" m.id ∧ ∀ nm' a k, e ≠ Ev.produceEvent m.id nm' a k := by
  intro ms
  induction ms with
  | nil =>
    intro to_ force s hmem huniq _
    refine ⟨⟨hmem, huniq⟩, ?_⟩
    intro e he
    simp [expireLoop] at he
  | cons a rest ih =>
    intro to_ force s hmem huniq hfresh
    cases hf : masterFresh a to_ with
    | true =>
      have hgoal : expireLoop (a :: rest) to_ force s = expireLoop rest to_ force s := by
        simp [expireLoop, hf]
      rw [hgoal]
      exact ih to_ force s hmem huniq (fun m' hm' h => hfresh m' (List.mem_cons_of_mem a hm') h)
    | false =>
      have hane : a.id ≠ m.id := by
        intro h
        have := hfresh a (List.mem_cons_self a rest) h
        rw [hf] at this
        exact Bool.false_ne_true this
      have hpres := setMasterState_preserves_other s a.id false m hane hmem huniq
      rcases hcas : setMasterState s a.id false with ⟨b, s1⟩
      have hs1 : m ∈ s1.masters ∧ ∀ rec ∈ s1.masters, rec.id = m.id → rec = m := by
        rw [hcas] at hpres; exact hpres
      have hrest : ∀ m' ∈ rest, m'.id = m.id → masterFresh m' to_ = true :=
        fun m' hm' h => hfresh m' (List.mem_cons_of_mem a hm') h
      cases b with
      | true =>
        have hgoal : expireLoop (a :: rest) to_ force s
            = ((expireLoop rest to_ force (masterDeactivated s1 a.id a.name).1).1,
               (masterDeactivated s1 a.id a.name).2
                 ++ (expireLoop rest to_ force (masterDeactivated s1 a.id a.name).1).2) := by
          simp [expireLoop, hf, hcas]
        rw [hgoal]
        have hmm : m ∈ (masterDeactivated s1 a.id a.name).1.masters
            ∧ ∀ rec ∈ (masterDeactivated s1 a.id a.name).1.masters,
                rec.id = m.id → rec = m := by
          rw [masterDeactivated_masters]; exact hs1
        have hrec := ih to_ force (masterDeactivated s1 a.id a.name).1 hmm.1 hmm.2 hrest
        refine ⟨hrec.1, ?_⟩
        intro e he
        rcases List.mem_append.mp he with he | he
        · exact masterDeactivated_trace_other s1 a.id a.name m.id hane e he
        · exact hrec.2 e he
      | false =>
        cases force with
        | true =>
          have hgoal : expireLoop (a :: rest) to_ true s
              = ((expireLoop rest to_ true (masterDeactivatedHousekeeping s1 a.id a.name).1).1,
                 (masterDeactivatedHousekeeping s1 a.id a.name).2
                   ++ (expireLoop rest to_ true
                        (masterDeactivatedHousekeeping s1 a.id a.name).1).2) := by
            simp [expireLoop, hf, hcas]
          rw [hgoal]
          have hmm : m ∈ (masterDeactivatedHousekeeping s1 a.id a.name).1.masters
              ∧ ∀ rec ∈ (masterDeactivatedHousekeeping s1 a.id a.name).1.masters,
                  rec.id = m.id → rec = m := by
            rw [masterDeactivatedHousekeeping_masters]; exact hs1
          have hrec := ih to_ true (masterDeactivatedHousekeeping s1 a.id a.name).1
            hmm.1 hmm.2 hrest
          refine ⟨hrec.1, ?_⟩
          intro e he
          rcases List.mem_append.mp he with he | he
          · exact hk_trace_other s1 a.id a.name m.id hane e he
          · exact hrec.2 e he
        | false =>
          have hgoal : expireLoop (a :: rest) to_ false s = expireLoop rest to_ false s1 := by
            simp [expireLoop, hf, hcas]
          rw [hgoal]
          exact ih to_ false s1 hs1.1 hs1.2 hrest

/-- A stale, active master present in the snapshot is deactivated by the
scan: its record is flipped inactive, the cascade runs for it and a
'stopped' notification carrying its id and name is emitted. -/
theorem expireLoop_deactivates (m : MasterRecord) :
    ∀ (ms : List MasterRecord) (to_ : Int) (force : Bool) (s : Store),
    m ∈ s.masters →
    (∀ rec ∈ s.masters, rec.id = m.id → rec = m) →
    m ∈ ms →
    (∀ m' ∈ ms, m'.id = m.id → m' = m) →
    ((ms.map (fun x => x.id)).Nodup) →
    masterFresh m to_ = false →
    m.active = true →
    ({ m with active := false } ∈ (expireLoop ms to_ force s).1.masters
      ∧ ∀ rec ∈ (expireLoop ms to_ force s).1.masters, rec.id = m.id →
          rec = { m with active := false })
    ∧ Ev.produceEvent m.id m.name false "stopped" ∈ (expireLoop ms to_ force s).2
    ∧ Ev.notify "worker" m.id ∈ (expireLoop ms to_ force s).2 := by
  intro ms
  induction ms with
  | nil =>
    intro to_ force s _ _ hin
    simp at hin
  | cons a rest ih =>
    intro to_ force s hmem huniq hin hsnap hnodup hstale hact
    by_cases haid : a.id = m.id
    · have ha : a = m := hsnap a (List.mem_cons_self a rest) haid
      subst ha
      have h1 := setMasterState_active_flips s a hmem huniq hact
      have hgoal : expireLoop (a :: rest) to_ force s
          = ((expireLoop rest to_ force
              (masterDeactivated { s with masters := s.masters.map (fun m2 =>
                if m2.id == a.id then { m2 with active := false } else m2) } a.id a.name).1).1,
             (masterDeactivated { s with masters := s.masters.map (fun m2 =>
                if m2.id == a.id then { m2 with active := false } else m2) } a.id a.name).2
               ++ (expireLoop rest to_ force
              (masterDeactivated { s with masters := s.masters.map (fun m2 =>
                if m2.id == a.id then { m2 with active := false } else m2) } a.id a.name).1).2) := by
        simp [expireLoop, hstale, h1]
      rw [hgoal]
      have hflip := flipped_uniq s a hmem huniq
      have hrest_fresh : ∀ m' ∈ rest,
          m'.id = MasterRecord.id { a with active := false } →
          masterFresh m' to_ = true := by
        intro m' hm' hid
        exfalso
        simp only [List.map_cons, List.nodup_cons] at hnodup
        exact hnodup.1 (hid ▸ List.mem_map_of_mem (fun x => x.id) hm')
      have hE1 := expireLoop_untouched { a with active := false } rest to_ force
        (masterDeactivated { s with masters := s.masters.map (fun m2 =>
          if m2.id == a.id then { m2 with active := false } else m2) } a.id a.name).1
        (by rw [masterDeactivated_masters]; exact hflip.1)
        (by rw [masterDeactivated_masters]; exact hflip.2)
        hrest_fresh
      refine ⟨⟨?_, ?_⟩, ?_, ?_⟩
      · exact hE1.1.1
      · exact hE1.1.2
      · exact List.mem_append.mpr (Or.inl (masterDeactivated_has_stopped _ a.id a.name))
      · exact List.mem_append.mpr (Or.inl (masterDeactivated_has_worker _ a.id a.name))
    · have hma : m ∈ rest := by
        rcases List.mem_cons.mp hin with h | h
        · exact absurd (congrArg MasterRecord.id h.symm) haid
        · exact h
      have hsnap' : ∀ m' ∈ rest, m'.id = m.id → m' = m :=
        fun m' hm' h => hsnap m' (List.mem_cons_of_mem a hm') h
      have hnodup' : (rest.map (fun x => x.id)).Nodup := by
        simp only [List.map_cons, List.nodup_cons] at hnodup
        exact hnodup.2
      cases hf : masterFresh a to_ with
      | true =>
        have hgoal : expireLoop (a :: rest) to_ force s = expireLoop rest to_ force s := by
          simp [expireLoop, hf]
        rw [hgoal]
        exact ih to_ force s hmem huniq hma hsnap' hnodup' hstale hact
      | false =>
        have hane : a.id ≠ m.id := haid
        have hpres := setMasterState_preserves_other s a.id false m hane hmem huniq
        rcases hcas : setMasterState s a.id false with ⟨b, s1⟩
        have hs1 : m ∈ s1.masters ∧ ∀ rec ∈ s1.masters, rec.id = m.id → rec = m := by
          rw [hcas] at hpres; exact hpres
        cases b with
        | true =>
          have hgoal : expireLoop (a :: rest) to_ force s
              = ((expireLoop rest to_ force (masterDeactivated s1 a.id a.name).1).1,
                 (masterDeactivated s1 a.id a.name).2
                   ++ (expireLoop rest to_ force (masterDeactivated s1 a.id a.name).1).2) := by
            simp [expireLoop, hf, hcas]
          rw [hgoal]
          have hrec := ih to_ force (masterDeactivated s1 a.id a.name).1
            (by rw [masterDeactivated_masters]; exact hs1.1)
            (by rw [masterDeactivated_masters]; exact hs1.2)
            hma hsnap' hnodup' hstale hact
          exact ⟨hrec.1,
            List.mem_append.mpr (Or.inr hrec.2.1),
            List.mem_append.mpr (Or.inr hrec.2.2)⟩
        | false =>
          cases force with
          | true =>
            have hgoal : expireLoop (a :: rest) to_ true s
                = ((expireLoop rest to_ true
                    (masterDeactivatedHousekeeping s1 a.id a.name).1).1,
                   (masterDeactivatedHousekeeping s1 a.id a.name).2
                     ++ (expireLoop rest to_ true
                        (masterDeactivatedHousekeeping s1 a.id a.name).1).2) := by
              simp [expireLoop, hf, hcas]
            rw [hgoal]
            have hrec := ih to_ true (masterDeactivatedHousekeeping s1 a.id a.name).1
              (by rw [masterDeactivatedHousekeeping_masters]; exact hs1.1)
              (by rw [masterDeactivatedHousekeeping_masters]; exact hs1.2)
              hma hsnap' hnodup' hstale hact
            exact ⟨hrec.1,
              List.mem_append.mpr (Or.inr hrec.2.1),
              List.mem_append.mpr (Or.inr hrec.2.2)⟩
          | false =>
            have hgoal : expireLoop (a :: rest) to_ false s = expireLoop rest to_ false s1 := by
              simp [expireLoop, hf, hcas]
            rw [hgoal]
            exact ih to_ false s1 hs1.1 hs1.2 hma hsnap' hnodup' hstale hact

/-- A stale, already-inactive master present in the snapshot gets the
forced (silent) housekeeping cascade during a forced scan: the cascade
marker for its id appears, its record is untouched, and no notification
whatsoever is emitted for its id by the whole scan. -/
theorem expireLoop_forced_hk (m : MasterRecord) :
    ∀ (ms : List MasterRecord) (to_ : Int) (s : Store),
    m ∈ s.masters →
    (∀ rec ∈ s.masters, rec.id = m.id → rec = m) →
    m ∈ ms →
    (∀ m' ∈ ms, m'.id = m.id → m' = m) →
    ((ms.map (fun x => x.id)).Nodup) →
    masterFresh m to_ = false →
    m.active = false →
    (m ∈ (expireLoop ms to_ true s).1.masters
      ∧ ∀ rec ∈ (expireLoop ms to_ true s).1.masters, rec.id = m.id → rec = m)
    ∧ Ev.notify "worker" m.id ∈ (expireLoop ms to_ true s).2
    ∧ ∀ e ∈ (expireLoop ms to_ true s).2, ∀ nm' a k, e ≠ Ev.produceEvent m.id nm' a k := by
  intro ms
  induction ms with
  | nil =>
    intro to_ s _ _ hin
    simp at hin
  | cons a rest ih =>
    intro to_ s hmem huniq hin hsnap hnodup hstale hina
    by_cases haid : a.id = m.id
    · have ha : a = m := hsnap a (List.mem_cons_self a rest) haid
      subst ha
      have h1 := setMasterState_inactive_noop s a hmem huniq hina
      have hgoal : expireLoop (a :: rest) to_ true s
          = ((expireLoop rest to_ true (masterDeactivatedHousekeeping s a.id a.name).1).1,
             (masterDeactivatedHousekeeping s a.id a.name).2
               ++ (expireLoop rest to_ true
                  (masterDeactivatedHousekeeping s a.id a.name).1).2) := by
        simp [expireLoop, hstale, h1]
      rw [hgoal]
      have hrest_fresh : ∀ m' ∈ rest, m'.id = a.id → masterFresh m' to_ = true := by
        intro m' hm' hid
        exfalso
        simp only [List.map_cons, List.nodup_cons] at hnodup
        exact hnodup.1 (hid ▸ List.mem_map_of_mem (fun x => x.id) hm')
      have hE1 := expireLoop_untouched a rest to_ true
        (masterDeactivatedHousekeeping s a.id a.name).1
        (by rw [masterDeactivatedHousekeeping_masters]; exact hmem)
        (by rw [masterDeactivatedHousekeeping_masters]; exact huniq)
        hrest_fresh
      refine ⟨⟨hE1.1.1, hE1.1.2⟩,
        List.mem_append.mpr (Or.inl (hk_trace_has_worker s a.id a.name)), ?_⟩
      intro e he nm' x k
      rcases List.mem_append.mp he with he | he
      · intro hcontra
        have := hk_trace_no_produce s a.id a.name e he
        rw [hcontra] at this
        simp [Ev.isProduce] at this
      · exact (hE1.2 e he).2 nm' x k
    · have hma : m ∈ rest := by
        rcases List.mem_cons.mp hin with h | h
        · exact absurd (congrArg MasterRecord.id h.symm) haid
        · exact h
      have hsnap' : ∀ m' ∈ rest, m'.id = m.id → m' = m :=
        fun m' hm' h => hsnap m' (List.mem_cons_of_mem a hm') h
      have hnodup' : (rest.map (fun x => x.id)).Nodup := by
        simp only [List.map_cons, List.nodup_cons] at hnodup
        exact hnodup.2
      cases hf : masterFresh a to_ with
      | true =>
        have hgoal : expireLoop (a :: rest) to_ true s = expireLoop rest to_ true s := by
          simp [expireLoop, hf]
        rw [hgoal]
        exact ih to_ s hmem huniq hma hsnap' hnodup' hstale hina
      | false =>
        have hane : a.id ≠ m.id := haid
        have hpres := setMasterState_preserves_other s a.id false m hane hmem huniq
        rcases hcas : setMasterState s a.id false with ⟨b, s1⟩
        have hs1 : m ∈ s1.masters ∧ ∀ rec ∈ s1.masters, rec.id = m.id → rec = m := by
          rw [hcas] at hpres; exact hpres
        cases b with
        | true =>
          have hgoal : expireLoop (a :: rest) to_ true s
              = ((expireLoop rest to_ true (masterDeactivated s1 a.id a.name).1).1,
                 (masterDeactivated s1 a.id a.name).2
                   ++ (expireLoop rest to_ true (masterDeactivated s1 a.id a.name).1).2) := by
            simp [expireLoop, hf, hcas]
          rw [hgoal]
          have hrec := ih to_ (masterDeactivated s1 a.id a.name).1
            (by rw [masterDeactivated_masters]; exact hs1.1)
            (by rw [masterDeactivated_masters]; exact hs1.2)
            hma hsnap' hnodup' hstale hina
          refine ⟨hrec.1, List.mem_append.mpr (Or.inr hrec.2.1), ?_⟩
          intro e he nm' x k
          rcases List.mem_append.mp he with he | he
          · exact (masterDeactivated_trace_other s1 a.id a.name m.id hane e he).2 nm' x k
          · exact hrec.2.2 e he nm' x k
        | false =>
          have hgoal : expireLoop (a :: rest) to_ true s
              = ((expireLoop rest to_ true
                  (masterDeactivatedHousekeeping s1 a.id a.name).1).1,
                 (masterDeactivatedHousekeeping s1 a.id a.name).2
                   ++ (expireLoop rest to_ true
                      (masterDeactivatedHousekeeping s1 a.id a.name).1).2) := by
            simp [expireLoop, hf, hcas]
          rw [hgoal]
          have hrec := ih to_ (masterDeactivatedHousekeeping s1 a.id a.name).1
            (by rw [masterDeactivatedHousekeeping_masters]; exact hs1.1)
            (by rw [masterDeactivatedHousekeeping_masters]; exact hs1.2)
            hma hsnap' hnodup' hstale hina
          refine ⟨hrec.1, List.mem_append.mpr (Or.inr hrec.2.1), ?_⟩
          intro e he nm' x k
          rcases List.mem_append.mp he with he | he
          · exact (hk_trace_other s1 a.id a.name m.id hane e he).2 nm' x k
          · exact hrec.2.2 e he nm' x k

theorem masters_uniq_of_nodup (s : Store) (m : MasterRecord)
    (hnodup : (s.masters.map (fun x => x.id)).Nodup) (hmem : m ∈ s.masters) :
    ∀ rec ∈ s.masters, rec.id = m.id → rec = m :=
  fun _ hrec h => List.inj_on_of_nodup_map hnodup hrec hmem h

/-! ## Claims C6, C9, C10 -/

/-- C6: the liveness scanner uses strict-inequality expiry semantics with
the default threshold `EXPIRE_MINUTES = 10` minutes: a master whose
`last_active` equals `now - 60 * EXPIRE_MINUTES` exactly is not expired (its
record is untouched, no cascade marker and no notification for its id), and
a master whose `last_active` is strictly older is expired and gets the full
`recordStop` semantics (flipped inactive, cascade run, 'stopped' event). -/
theorem C6_expiry_boundary_strict :
    (∀ (s : Store) (now : Int) (force : Bool) (m : MasterRecord),
      m ∈ s.masters → (s.masters.map (fun x => x.id)).Nodup →
      m.last_active = some (now - 60 * (EXPIRE_MINUTES : Int)) →
      m ∈ (expireMasters s now force).1.masters
      ∧ Ev.notify "worker" m.id ∉ (expireMasters s now force).2
      ∧ ∀ nm' a k, Ev.produceEvent m.id nm' a k ∉ (expireMasters s now force).2)
    ∧ (∀ (s : Store) (now : Int) (force : Bool) (m : MasterRecord) (t : Int),
      m ∈ s.masters → (s.masters.map (fun x => x.id)).Nodup →
      m.last_active = some t → t < now - 60 * (EXPIRE_MINUTES : Int) →
      m.active = true →
      { m with active := false } ∈ (expireMasters s now force).1.masters
      ∧ Ev.produceEvent m.id m.name false "stopped" ∈ (expireMasters s now force).2
      ∧ Ev.notify "worker" m.id ∈ (expireMasters s now force).2) := by
  constructor
  · intro s now force m hmem hnodup hla
    have huniq := masters_uniq_of_nodup s m hnodup hmem
    have hfresh : ∀ m' ∈ s.masters, m'.id = m.id →
        masterFresh m' (now - 60 * (EXPIRE_MINUTES : Int)) = true := by
      intro m' hm' hid
      rw [huniq m' hm' hid]
      simp [masterFresh, hla]
    have hE1 := expireLoop_untouched m s.masters (now - 60 * (EXPIRE_MINUTES : Int))
      force s hmem huniq hfresh
    refine ⟨hE1.1.1, ?_, ?_⟩
    · intro hmem'
      exact (hE1.2 _ hmem').1 rfl
    · intro nm' a k hmem'
      exact (hE1.2 _ hmem').2 nm' a k rfl
  · intro s now force m t hmem hnodup hla ht hact
    have huniq := masters_uniq_of_nodup s m hnodup hmem
    have hstale : masterFresh m (now - 60 * (EXPIRE_MINUTES : Int)) = false := by
      simp only [masterFresh, hla, decide_eq_false_iff_not, not_le]
      exact ht
    have hE2 := expireLoop_deactivates m s.masters (now - 60 * (EXPIRE_MINUTES : Int))
      force s hmem huniq hmem huniq hnodup hstale hact
    exact ⟨hE2.1.1, hE2.2.1, hE2.2.2⟩

/-- Witness for C6 at a boundary master (id 1, heartbeat exactly at the
cutoff) and a strictly-expired master (id 2, one second past it). -/
theorem C6_expiry_boundary_strict_witness :
    ((⟨1, "a", true, some 400⟩ : MasterRecord)
        ∈ (expireMasters ⟨[⟨1, "a", true, some 400⟩], [], [], [], []⟩ 1000 false).1.masters
      ∧ Ev.notify "worker" 1
        ∉ (expireMasters ⟨[⟨1, "a", true, some 400⟩], [], [], [], []⟩ 1000 false).2
      ∧ ∀ nm' a k, Ev.produceEvent 1 nm' a k
        ∉ (expireMasters ⟨[⟨1, "a", true, some 400⟩], [], [], [], []⟩ 1000 false).2)
    ∧ ((⟨2, "b", false, some 399⟩ : MasterRecord)
        ∈ (expireMasters ⟨[⟨2, "b", true, some 399⟩], [], [], [], []⟩ 1000 false).1.masters
      ∧ Ev.produceEvent 2 "b" false "stopped"
        ∈ (expireMasters ⟨[⟨2, "b", true, some 399⟩], [], [], [], []⟩ 1000 false).2
      ∧ Ev.notify "worker" 2
        ∈ (expireMasters ⟨[⟨2, "b", true, some 399⟩], [], [], [], []⟩ 1000 false).2) := by
  constructor
  · exact C6_expiry_boundary_strict.1 ⟨[⟨1, "a", true, some 400⟩], [], [], [], []⟩ 1000 false
      ⟨1, "a", true, some 400⟩ (by decide) (by decide) (by decide)
  · exact C6_expiry_boundary_strict.2 ⟨[⟨2, "b", true, some 399⟩], [], [], [], []⟩ 1000 false
      ⟨2, "b", true, some 399⟩ 399 (by decide) (by decide) (by decide) (by decide) rfl

/-- C9 counterexample: a currently-inactive master whose `last_active` is
fresh is skipped by the scanner even with forced housekeeping enabled — no
cascade is invoked for it (the scan's trace is empty and the store is
unchanged), refuting "every master that is currently inactive". -/
theorem C9_counterexample_fresh_inactive_skipped :
    ((⟨1, "m", false, some 1000⟩ : MasterRecord).active = false)
    ∧ expireMasters ⟨[⟨1, "m", false, some 1000⟩], [], [], [], []⟩ 1000 true
      = (⟨[⟨1, "m", false, some 1000⟩], [], [], [], []⟩, []) := by
  refine ⟨rfl, ?_⟩
  decide

/-- C9 (amended): with forced housekeeping enabled, the scanner invokes the
silent deactivation cascade for every *stale* master (one failing the
freshness guard) that is currently inactive — the CAS reports no change —
and these forced runs emit no notification at all for that master: the
cascade marker appears in the trace, no `produceEvent` for the master's id
does, and its record is untouched. -/
theorem C9_forced_housekeeping_stale_inactive (s : Store) (now : Int) (m : MasterRecord)
    (hmem : m ∈ s.masters) (hnodup : (s.masters.map (fun x => x.id)).Nodup)
    (hstale : masterFresh m (now - 60 * (EXPIRE_MINUTES : Int)) = false)
    (hina : m.active = false) :
    Ev.notify "worker" m.id ∈ (expireMasters s now true).2
    ∧ (∀ e ∈ (expireMasters s now true).2, ∀ nm' a k, e ≠ Ev.produceEvent m.id nm' a k)
    ∧ m ∈ (expireMasters s now true).1.masters := by
  have huniq := masters_uniq_of_nodup s m hnodup hmem
  have hE3 := expireLoop_forced_hk m s.masters (now - 60 * (EXPIRE_MINUTES : Int)) s
    hmem huniq hmem huniq hnodup hstale hina
  exact ⟨hE3.2.1, hE3.2.2, hE3.1.1⟩

/-- Witness for the amended C9 at a concrete stale inactive master. -/
theorem C9_forced_housekeeping_stale_inactive_witness :
    Ev.notify "worker" 1
      ∈ (expireMasters ⟨[⟨1, "m", false, some 0⟩], [], [], [], []⟩ 1000 true).2
    ∧ (∀ e ∈ (expireMasters ⟨[⟨1, "m", false, some 0⟩], [], [], [], []⟩ 1000 true).2,
        ∀ nm' a k, e ≠ Ev.produceEvent 1 nm' a k)
    ∧ (⟨1, "m", false, some 0⟩ : MasterRecord)
      ∈ (expireMasters ⟨[⟨1, "m", false, some 0⟩], [], [], [], []⟩ 1000 true).1.masters :=
  C9_forced_housekeeping_stale_inactive ⟨[⟨1, "m", false, some 0⟩], [], [], [], []⟩ 1000
    ⟨1, "m", false, some 0⟩ (by decide) (by decide) (by decide) rfl

/-- C10: a master whose `last_active` is unset is treated as stale by every
scanner run, whatever the clock and threshold: the deactivating transition
is always attempted for it — on a real change (master was active) the full
cascade runs and the 'stopped' event is emitted; on a no-op change (master
already inactive) with forced housekeeping the silent cascade runs, with no
notification for its id. -/
theorem C10_unset_last_active_always_stale (s : Store) (now : Int) (force : Bool)
    (m : MasterRecord) (hmem : m ∈ s.masters)
    (hnodup : (s.masters.map (fun x => x.id)).Nodup)
    (hnone : m.last_active = none) :
    (m.active = true →
      { m with active := false } ∈ (expireMasters s now force).1.masters
      ∧ Ev.produceEvent m.id m.name false "stopped" ∈ (expireMasters s now force).2
      ∧ Ev.notify "worker" m.id ∈ (expireMasters s now force).2)
    ∧ (m.active = false →
      Ev.notify "worker" m.id ∈ (expireMasters s now true).2
      ∧ ∀ e ∈ (expireMasters s now true).2, ∀ nm' a k, e ≠ Ev.produceEvent m.id nm' a k) := by
  have huniq := masters_uniq_of_nodup s m hnodup hmem
  have hstale := masterFresh_none m (now - 60 * (EXPIRE_MINUTES : Int)) hnone
  constructor
  · intro hact
    have hE2 := expireLoop_deactivates m s.masters (now - 60 * (EXPIRE_MINUTES : Int))
      force s hmem huniq hmem huniq hnodup hstale hact
    exact ⟨hE2.1.1, hE2.2.1, hE2.2.2⟩
  · intro hina
    have hE3 := expireLoop_forced_hk m s.masters (now - 60 * (EXPIRE_MINUTES : Int)) s
      hmem huniq hmem huniq hnodup hstale hina
    exact ⟨hE3.2.1, hE3.2.2⟩

/-- Witness for C10 at two concrete one-master stores with unset
`last_active`: one active, one inactive. -/
theorem C10_unset_last_active_always_stale_witness :
    ((⟨1, "a", false, none⟩ : MasterRecord)
        ∈ (expireMasters ⟨[⟨1, "a", true, none⟩], [], [], [], []⟩ 0 false).1.masters
      ∧ Ev.produceEvent 1 "a" false "stopped"
        ∈ (expireMasters ⟨[⟨1, "a", true, none⟩], [], [], [], []⟩ 0 false).2
      ∧ Ev.notify "worker" 1
        ∈ (expireMasters ⟨[⟨1, "a", true, none⟩], [], [], [], []⟩ 0 false).2)
    ∧ (Ev.notify "worker" 2
        ∈ (expireMasters ⟨[⟨2, "b", false, none⟩], [], [], [], []⟩ 0 true).2
      ∧ ∀ e ∈ (expireMasters ⟨[⟨2, "b", false, none⟩], [], [], [], []⟩ 0 true).2,
          ∀ nm' a k, e ≠ Ev.produceEvent 2 nm' a k) := by
  constructor
  · exact (C10_unset_last_active_always_stale ⟨[⟨1, "a", true, none⟩], [], [], [], []⟩ 0 false
      ⟨1, "a", true, none⟩ (by decide) (by decide) rfl).1 rfl
  · exact (C10_unset_last_active_always_stale ⟨[⟨2, "b", false, none⟩], [], [], [], []⟩ 0 true
      ⟨2, "b", false, none⟩ (by decide) (by decide) rfl).2 rfl

/-! ## Failure-aware cascade: agreement with the pure run and trace facts -/

theorem finishLogsLoopE_noFail (ls : List LogRecord) (s : Store) :
    finishLogsLoopE (fun _ => false) ls s = .ok (finishLogsLoop ls s) := by
  induction ls generalizing s with
  | nil => rfl
  | cons l rest ih => simp [finishLogsLoopE, finishLogsLoop, ih]

theorem finishStepsLoopE_noFail (sts : List StepRecord) (s : Store) :
    finishStepsLoopE (fun _ => false) sts s = .ok (finishStepsLoop sts s) := by
  induction sts generalizing s with
  | nil => rfl
  | cons st rest ih =>
    simp [finishStepsLoopE, finishStepsLoop, finishLogsLoopE_noFail, ih]

theorem finishBuildsLoopE_noFail (bs : List BuildRecord) (s : Store) :
    finishBuildsLoopE (fun _ => false) bs s = .ok (finishBuildsLoop bs s) := by
  induction bs generalizing s with
  | nil => rfl
  | cons b rest ih =>
    simp [finishBuildsLoopE, finishBuildsLoop, finishStepsLoopE_noFail, ih]

/-- With no operation failing, the failure-aware cascade agrees with the
pure one. -/
theorem hkE_noFail (s : Store) (mid : Nat) (nm : String) :
    masterDeactivatedHousekeepingE (fun _ => false) s mid nm
      = .ok (masterDeactivatedHousekeeping s mid nm) := by
  simp [masterDeactivatedHousekeepingE, masterDeactivatedHousekeeping,
    finishBuildsLoopE_noFail]

theorem masterStoppedE_noFail (s : Store) (nm : String) (mid : Nat) :
    masterStoppedE (fun _ => false) s nm mid
      = .ok ((masterStopped s nm mid).2.1, (masterStopped s nm mid).2.2) := by
  simp only [masterStoppedE, masterStopped, masterDeactivatedE, masterDeactivated, hkE_noFail]
  by_cases hc : (setMasterState s mid false).1 = true
  · simp [hc]
  · simp [hc]

theorem finishLogsLoopE_trace_finish (fails : Op → Bool) (ls : List LogRecord) (s : Store) :
    ∀ e ∈ exTrace (finishLogsLoopE fails ls s), e.isFinish = true := by
  induction ls generalizing s with
  | nil => intro e he; simp [finishLogsLoopE, exTrace] at he
  | cons l rest ih =>
    intro e he
    simp only [finishLogsLoopE] at he
    by_cases hl : fails (Op.opFinishLog l.logid) = true
    · rw [if_pos hl] at he
      simp [exTrace] at he
    · rw [if_neg hl] at he
      cases hm : finishLogsLoopE fails rest (finishLog s l.logid) with
      | ok r =>
        rw [hm] at he
        simp only [exTrace, List.mem_cons] at he
        rcases he with rfl | he
        · rfl
        · have := ih (finishLog s l.logid) e
          rw [hm] at this
          exact this he
      | error r =>
        rw [hm] at he
        simp only [exTrace, List.mem_cons] at he
        rcases he with rfl | he
        · rfl
        · have := ih (finishLog s l.logid) e
          rw [hm] at this
          exact this he

theorem finishStepsLoopE_trace_finish (fails : Op → Bool) (sts : List StepRecord) (s : Store) :
    ∀ e ∈ exTrace (finishStepsLoopE fails sts s), e.isFinish = true := by
  induction sts generalizing s with
  | nil => intro e he; simp [finishStepsLoopE, exTrace] at he
  | cons st rest ih =>
    intro e he
    simp only [finishStepsLoopE] at he
    split at he
    · simp [exTrace] at he
    · split at he
      · rename_i r heq
        have hlogs := finishLogsLoopE_trace_finish fails (getLogs s st.stepid) s e
        rw [heq] at hlogs
        exact hlogs he
      · rename_i r1 heq
        have hlogs := finishLogsLoopE_trace_finish fails (getLogs s st.stepid) s e
        rw [heq] at hlogs
        split at he
        · exact hlogs he
        · split at he
          · rename_i r3 heq3
            simp only [exTrace, List.mem_append, List.mem_cons] at he
            rcases he with he | rfl | he
            · exact hlogs he
            · rfl
            · have := ih (finishStep r1.1 st.stepid RETRY false) e
              rw [heq3] at this
              exact this he
          · rename_i r3 heq3
            simp only [exTrace, List.mem_append, List.mem_cons] at he
            rcases he with he | rfl | he
            · exact hlogs he
            · rfl
            · have := ih (finishStep r1.1 st.stepid RETRY false) e
              rw [heq3] at this
              exact this he

theorem finishBuildsLoopE_trace_finish (fails : Op → Bool) (bs : List BuildRecord) (s : Store) :
    ∀ e ∈ exTrace (finishBuildsLoopE fails bs s), e.isFinish = true := by
  induction bs generalizing s with
  | nil => intro e he; simp [finishBuildsLoopE, exTrace] at he
  | cons b rest ih =>
    intro e he
    simp only [finishBuildsLoopE] at he
    split at he
    · simp [exTrace] at he
    · split at he
      · rename_i r heq
        have hlogs := finishStepsLoopE_trace_finish fails (getSteps s b.buildid) s e
        rw [heq] at hlogs
        exact hlogs he
      · rename_i r1 heq
        have hlogs := finishStepsLoopE_trace_finish fails (getSteps s b.buildid) s e
        rw [heq] at hlogs
        split at he
        · exact hlogs he
        · split at he
          · rename_i r3 heq3
            simp only [exTrace, List.mem_append, List.mem_cons] at he
            rcases he with he | rfl | he
            · exact hlogs he
            · rfl
            · have := ih (finishBuild r1.1 b.buildid RETRY) e
              rw [heq3] at this
              exact this he
          · rename_i r3 heq3
            simp only [exTrace, List.mem_append, List.mem_cons] at he
            rcases he with he | rfl | he
            · exact hlogs he
            · rfl
            · have := ih (finishBuild r1.1 b.buildid RETRY) e
              rw [heq3] at this
              exact this he

/-- Whether the cascade completes or aborts at a failed operation, no
`produceEvent` is ever emitted inside the housekeeping run. -/
theorem hkE_trace_no_produce (fails : Op → Bool) (s : Store) (mid : Nat) (nm : String) :
    ∀ e ∈ exTrace (masterDeactivatedHousekeepingE fails s mid nm), e.isProduce = false := by
  intro e he
  simp only [masterDeactivatedHousekeepingE] at he
  by_cases h1 : fails (Op.notifyWorker mid) = true
  · rw [if_pos h1] at he
    simp [exTrace] at he
  · rw [if_neg h1] at he
    by_cases h2 : fails (Op.notifyBuilder mid) = true
    · rw [if_pos h2] at he
      simp only [exTrace, List.mem_singleton] at he
      subst he; rfl
    · rw [if_neg h2] at he
      by_cases h3 : fails (Op.notifyScheduler mid) = true
      · rw [if_pos h3] at he
        simp only [exTrace, List.mem_cons, List.not_mem_nil, or_false] at he
        rcases he with rfl | rfl <;> rfl
      · rw [if_neg h3] at he
        by_cases h4 : fails (Op.notifyChangesource mid) = true
        · rw [if_pos h4] at he
          simp only [exTrace, List.mem_cons, List.not_mem_nil, or_false] at he
          rcases he with rfl | rfl | rfl <;> rfl
        · rw [if_neg h4] at he
          by_cases h5 : fails (Op.opGetBuilds mid) = true
          · rw [if_pos h5] at he
            simp only [exTrace, List.mem_cons, List.not_mem_nil, or_false] at he
            rcases he with rfl | rfl | rfl | rfl <;> rfl
          · rw [if_neg h5] at he
            have hloop := finishBuildsLoopE_trace_finish fails (getBuilds s mid) s e
            have hnotify : ∀ x ∈ [Ev.notify "worker" mid, Ev.notify "builder" mid,
                Ev.notify "scheduler" mid, Ev.notify "changesource" mid],
                Ev.isProduce x = false := by
              intro x hx
              simp only [List.mem_cons, List.not_mem_nil, or_false] at hx
              rcases hx with rfl | rfl | rfl | rfl <;> rfl
            have hfin : ∀ x : Ev, x.isFinish = true → x.isProduce = false := by
              intro x hx
              cases x <;> simp_all [Ev.isFinish, Ev.isProduce]
            split at he
            · rename_i r heq
              rw [heq] at hloop
              simp only [exTrace, List.mem_append] at he
              rcases he with he | he
              · exact hnotify e he
              · exact hfin e (hloop he)
            · rename_i r1 heq
              rw [heq] at hloop
              split at he
              · simp only [exTrace, List.mem_append] at he
                rcases he with he | he
                · exact hnotify e he
                · exact hfin e (hloop he)
              · split at he
                · simp only [exTrace, List.mem_append] at he
                  rcases he with he | he
                  · exact hnotify e he
                  · exact hfin e (hloop he)
                · simp only [exTrace, List.mem_append, List.mem_singleton] at he
                  rcases he with (he | he) | rfl
                  · exact hnotify e he
                  · exact hfin e (hloop he)
                  · rfl

/-- Corollary of `hkE_trace_no_produce` for a completed run. -/
theorem hkE_ok_no_produce (fails : Op → Bool) (s : Store) (mid : Nat) (nm : String)
    (r : Store × List Ev)
    (h : masterDeactivatedHousekeepingE fails s mid nm = .ok r) :
    ∀ e ∈ r.2, e.isProduce = false := by
  intro e he
  have hx := hkE_trace_no_produce fails s mid nm e
  rw [h] at hx
  exact hx he

/-! ## Claims C4 and C8 -/

theorem masterDeactivatedE_ok_elim (fails : Op → Bool) (s : Store) (mid : Nat)
    (nm : String) (s' : Store) (tr : List Ev)
    (h : masterDeactivatedE fails s mid nm = .ok (s', tr)) :
    ∃ r, masterDeactivatedHousekeepingE fails s mid nm = .ok r
      ∧ s' = r.1 ∧ tr = r.2 ++ [Ev.produceEvent mid nm false "stopped"] := by
  unfold masterDeactivatedE at h
  cases hm : masterDeactivatedHousekeepingE fails s mid nm with
  | error r =>
    rw [hm] at h
    have h' : (Except.error r : Except (Store × List Ev) (Store × List Ev))
        = .ok (s', tr) := h
    simp at h'
  | ok r =>
    rw [hm] at h
    have h' : (Except.ok (r.1, r.2 ++ [Ev.produceEvent mid nm false "stopped"])
        : Except (Store × List Ev) (Store × List Ev)) = .ok (s', tr) := h
    simp only [Except.ok.injEq, Prod.mk.injEq] at h'
    exact ⟨r, rfl, h'.1.symm, h'.2.symm⟩

theorem masterDeactivatedE_error_elim (fails : Op → Bool) (s : Store) (mid : Nat)
    (nm : String) (s' : Store) (tr : List Ev)
    (h : masterDeactivatedE fails s mid nm = .error (s', tr)) :
    masterDeactivatedHousekeepingE fails s mid nm = .error (s', tr) := by
  unfold masterDeactivatedE at h
  cases hm : masterDeactivatedHousekeepingE fails s mid nm with
  | error r =>
    rw [hm] at h
    have h' : (Except.error r : Except (Store × List Ev) (Store × List Ev))
        = .error (s', tr) := h
    exact h'
  | ok r =>
    rw [hm] at h
    have h' : (Except.ok (r.1, r.2 ++ [Ev.produceEvent mid nm false "stopped"])
        : Except (Store × List Ev) (Store × List Ev)) = .error (s', tr) := h
    simp at h'

/-- C4: a real deactivation emits exactly one 'stopped' (spec:
"deactivated") notification with payload `{masterid, name, active: false}`,
strictly after the full cascade completed (it is the last trace entry and
no other notification occurs before it); if any cascade operation fails, no
'stopped' notification is emitted at all.  Likewise a real activation emits
exactly one 'started' (spec: "activated") notification with payload
`{masterid, name, active: true}`. -/
theorem C4_notification_exactly_once_after_cascade :
    (∀ (fails : Op → Bool) (s : Store) (nm : String) (m : MasterRecord)
        (s' : Store) (tr : List Ev),
      m ∈ s.masters → (∀ rec ∈ s.masters, rec.id = m.id → rec = m) → m.active = true →
      masterStoppedE fails s nm m.id = .ok (s', tr) →
      ∃ tr', tr = tr' ++ [Ev.produceEvent m.id nm false "stopped"]
        ∧ ∀ e ∈ tr', e.isProduce = false)
    ∧ (∀ (fails : Op → Bool) (s : Store) (nm : String) (mid : Nat)
        (s' : Store) (tr : List Ev),
      masterStoppedE fails s nm mid = .error (s', tr) →
      ∀ e ∈ tr, e.isProduce = false)
    ∧ (∀ (s : Store) (nm : String) (m : MasterRecord),
      m ∈ s.masters → (∀ rec ∈ s.masters, rec.id = m.id → rec = m) → m.active = false →
      (masterActive s nm m.id).1 = true
      ∧ (masterActive s nm m.id).2.2 = [Ev.produceEvent m.id nm true "started"]) := by
  refine ⟨?_, ?_, ?_⟩
  · intro fails s nm m s' tr hmem huniq hact hok
    have h1 := setMasterState_active_flips s m hmem huniq hact
    simp only [masterStoppedE, h1, if_true] at hok
    obtain ⟨r, hm, hs', htr⟩ := masterDeactivatedE_ok_elim _ _ _ _ _ _ hok
    refine ⟨r.2, htr, ?_⟩
    exact hkE_ok_no_produce _ _ _ _ _ hm
  · intro fails s nm mid s' tr herr
    simp only [masterStoppedE] at herr
    by_cases hc : (setMasterState s mid false).1 = true
    · rw [if_pos hc] at herr
      have hm := masterDeactivatedE_error_elim _ _ _ _ _ _ herr
      intro e he
      have := hkE_trace_no_produce fails (setMasterState s mid false).2 mid nm e
      rw [hm] at this
      exact this he
    · rw [if_neg hc] at herr
      simp at herr
  · intro s nm m hmem huniq hina
    have hfind := find?_eq_of_uniq s.masters m hmem huniq
    constructor
    · simp [masterActive, setMasterState, hfind, hina]
    · simp [masterActive, setMasterState, hfind, hina]

/-- Witness for C4: a completed deactivation cascade for master 1 (the
'stopped' entry is last), an aborted one (no 'stopped' entry), and a real
activation of master 2. -/
theorem C4_notification_exactly_once_after_cascade_witness :
    (∃ tr', [Ev.notify "worker" 1, Ev.notify "builder" 1, Ev.notify "scheduler" 1,
        Ev.notify "changesource" 1, Ev.unclaim [],
        Ev.produceEvent 1 "a" false "stopped"]
        = tr' ++ [Ev.produceEvent 1 "a" false "stopped"]
      ∧ ∀ e ∈ tr', e.isProduce = false)
    ∧ (∀ e ∈ [Ev.notify "worker" 1, Ev.notify "builder" 1], e.isProduce = false)
    ∧ ((masterActive ⟨[⟨2, "b", false, none⟩], [], [], [], []⟩ "b" 2).1 = true
      ∧ (masterActive ⟨[⟨2, "b", false, none⟩], [], [], [], []⟩ "b" 2).2.2
        = [Ev.produceEvent 2 "b" true "started"]) := by
  refine ⟨?_, ?_, ?_⟩
  · exact C4_notification_exactly_once_after_cascade.1 (fun _ => false)
      ⟨[⟨1, "a", true, none⟩], [], [], [], []⟩ "a" ⟨1, "a", true, none⟩
      ⟨[⟨1, "a", false, none⟩], [], [], [], []⟩
      [Ev.notify "worker" 1, Ev.notify "builder" 1, Ev.notify "scheduler" 1,
        Ev.notify "changesource" 1, Ev.unclaim [],
        Ev.produceEvent 1 "a" false "stopped"]
      (by decide) (by decide) rfl rfl
  · exact C4_notification_exactly_once_after_cascade.2.1
      (fun op => match op with | Op.notifyScheduler _ => true | _ => false)
      ⟨[⟨1, "a", true, none⟩], [], [], [], []⟩ "a" 1
      ⟨[⟨1, "a", false, none⟩], [], [], [], []⟩
      [Ev.notify "worker" 1, Ev.notify "builder" 1] rfl
  · exact C4_notification_exactly_once_after_cascade.2.2
      ⟨[⟨2, "b", false, none⟩], [], [], [], []⟩ "b" ⟨2, "b", false, none⟩
      (by decide) (by decide) rfl

/-- C8 counterexample: with the builder observer failing for master 1, the
housekeeping aborts at that observer: the scheduler and change-source
observers are never invoked and no cascade stage runs — the store (still
holding master 1's incomplete build 42) is returned unchanged and only the
worker fan-out call happened.  This refutes the claim that one observer's
failure "does not prevent the remaining observers from being invoked nor
the subsequent cascade stages from running". -/
theorem C8_counterexample_observer_failure_aborts :
    masterDeactivatedHousekeepingE
        (fun op => match op with | Op.notifyBuilder _ => true | _ => false)
        ⟨[], [⟨42, 1, false, none⟩], [], [], []⟩ 1 "m"
      = .error (⟨[], [⟨42, 1, false, none⟩], [], [], []⟩, [Ev.notify "worker" 1])
    ∧ (⟨42, 1, false, none⟩ : BuildRecord).complete = false := ⟨rfl, rfl⟩

/-- C8 (amended): the observer fan-out has no error handling: a failing
observer call aborts the housekeeping at that point — observers earlier in
the fixed order were already invoked, the remaining observers are not
invoked, no build/step/log finalization and no work-request release runs,
and the failure propagates to the caller with the store unchanged. -/
theorem C8_observer_failure_propagates (fails : Op → Bool) (s : Store)
    (mid : Nat) (nm : String) :
    (fails (Op.notifyWorker mid) = true →
      masterDeactivatedHousekeepingE fails s mid nm = .error (s, []))
    ∧ (fails (Op.notifyWorker mid) = false → fails (Op.notifyBuilder mid) = true →
      masterDeactivatedHousekeepingE fails s mid nm
        = .error (s, [Ev.notify "worker" mid]))
    ∧ (fails (Op.notifyWorker mid) = false → fails (Op.notifyBuilder mid) = false →
      fails (Op.notifyScheduler mid) = true →
      masterDeactivatedHousekeepingE fails s mid nm
        = .error (s, [Ev.notify "worker" mid, Ev.notify "builder" mid]))
    ∧ (fails (Op.notifyWorker mid) = false → fails (Op.notifyBuilder mid) = false →
      fails (Op.notifyScheduler mid) = false → fails (Op.notifyChangesource mid) = true →
      masterDeactivatedHousekeepingE fails s mid nm
        = .error (s, [Ev.notify "worker" mid, Ev.notify "builder" mid,
            Ev.notify "scheduler" mid])) := by
  refine ⟨?_, ?_, ?_, ?_⟩ <;>
    · intros
      simp [masterDeactivatedHousekeepingE, *]

/-- Witness for the amended C8: the scheduler observer failing for master 1
aborts the run after worker and builder were notified. -/
theorem C8_observer_failure_propagates_witness :
    masterDeactivatedHousekeepingE
        (fun op => match op with | Op.notifyScheduler _ => true | _ => false)
        ⟨[], [⟨42, 1, false, none⟩], [], [], []⟩ 1 "m"
      = .error (⟨[], [⟨42, 1, false, none⟩], [], [], []⟩,
          [Ev.notify "worker" 1, Ev.notify "builder" 1]) :=
  (C8_observer_failure_propagates
    (fun op => match op with | Op.notifyScheduler _ => true | _ => false)
    ⟨[], [⟨42, 1, false, none⟩], [], [], []⟩ 1 "m").2.2.1 rfl rfl rfl

/-! ## Claim C3: identity-tracking lemmas for the cascade ordering -/

theorem finishLog_logids (s : Store) (lid : Nat) :
    (finishLog s lid).logs.map (fun x => x.logid) = s.logs.map (fun x => x.logid) := by
  simp only [finishLog]
  rw [List.map_map]
  apply List.map_congr_left
  intro a _
  simp only [Function.comp]
  split <;> rfl

theorem finishLogsLoop_logids (ls : List LogRecord) (s : Store) :
    (finishLogsLoop ls s).1.logs.map (fun x => x.logid)
      = s.logs.map (fun x => x.logid) := by
  induction ls generalizing s with
  | nil => rfl
  | cons l rest ih =>
    simp only [finishLogsLoop]
    rw [ih, finishLog_logids]

theorem finishStep_stepids (s : Store) (sid r : Nat) (hd : Bool) :
    (finishStep s sid r hd).steps.map (fun x => x.stepid)
      = s.steps.map (fun x => x.stepid) := by
  simp only [finishStep]
  rw [List.map_map]
  apply List.map_congr_left
  intro a _
  simp only [Function.comp]
  split <;> rfl

theorem finishStepsLoop_stepids (sts : List StepRecord) (s : Store) :
    (finishStepsLoop sts s).1.steps.map (fun x => x.stepid)
      = s.steps.map (fun x => x.stepid) := by
  induction sts generalizing s with
  | nil => rfl
  | cons st rest ih =>
    simp only [finishStepsLoop]
    rw [ih, finishStep_stepids]
    have : (finishLogsLoop (getLogs s st.stepid) s).1.steps = s.steps :=
      finishLogsLoop_steps _ _
    rw [this]

theorem finishStepsLoop_logids (sts : List StepRecord) (s : Store) :
    (finishStepsLoop sts s).1.logs.map (fun x => x.logid)
      = s.logs.map (fun x => x.logid) := by
  induction sts generalizing s with
  | nil => rfl
  | cons st rest ih =>
    simp only [finishStepsLoop]
    rw [ih]
    simp only [finishStep_logs]
    rw [finishLogsLoop_logids]

theorem finishLog_mem (s : Store) (lid : Nat) (l : LogRecord)
    (hl : l ∈ s.logs) (hne : l.logid ≠ lid) : l ∈ (finishLog s lid).logs := by
  simp only [finishLog]
  have h : (if (l.logid == lid) = true then { l with complete := true } else l) = l := by
    rw [if_neg]
    simp [hne]
  rw [← h]
  exact List.mem_map_of_mem _ hl

theorem finishLogsLoop_mem (l : LogRecord) :
    ∀ (ls : List LogRecord) (s : Store),
    l ∈ s.logs → (∀ q ∈ ls, q.logid ≠ l.logid) →
    l ∈ (finishLogsLoop ls s).1.logs := by
  intro ls
  induction ls with
  | nil => intro s hl _; exact hl
  | cons q rest ih =>
    intro s hl hq
    simp only [finishLogsLoop]
    refine ih _ ?_ (fun q' hq' => hq q' (List.mem_cons_of_mem q hq'))
    exact finishLog_mem s q.logid l hl
      (fun h => hq q (List.mem_cons_self q rest) h.symm)

theorem finishStep_steps_mem (s : Store) (sid r : Nat) (hd : Bool) (st : StepRecord)
    (hst : st ∈ s.steps) (hne : st.stepid ≠ sid) : st ∈ (finishStep s sid r hd).steps := by
  simp only [finishStep]
  have h : (if (st.stepid == sid) = true then
      { st with results := some r, hidden := hd } else st) = st := by
    rw [if_neg]
    simp [hne]
  rw [← h]
  exact List.mem_map_of_mem _ hst

/-- Processing steps none of which carry the step's id leaves that step
record, and any log record attached to it, completely untouched. -/
theorem finishStepsLoop_preserves (st : StepRecord) (l : LogRecord) :
    ∀ (sts : List StepRecord) (s : Store),
    st ∈ s.steps → l ∈ s.logs → l.stepid = st.stepid →
    (s.logs.map (fun x => x.logid)).Nodup →
    (∀ q ∈ sts, q.stepid ≠ st.stepid) →
    st ∈ (finishStepsLoop sts s).1.steps ∧ l ∈ (finishStepsLoop sts s).1.logs := by
  intro sts
  induction sts with
  | nil => intro s hst hl _ _ _; exact ⟨hst, hl⟩
  | cons q rest ih =>
    intro s hst hl hlsid hnodup hq
    simp only [finishStepsLoop]
    have hqne : q.stepid ≠ st.stepid := hq q (List.mem_cons_self q rest)
    have hlog1 : l ∈ (finishLogsLoop (getLogs s q.stepid) s).1.logs := by
      refine finishLogsLoop_mem l _ s hl ?_
      intro q' hq'
      simp only [getLogs] at hq'
      rcases List.mem_filter.mp hq' with ⟨hq'mem, hpred⟩
      simp only [Bool.and_eq_true, beq_iff_eq] at hpred
      have hne : q' ≠ l := by
        intro hcontra
        apply hqne
        rw [← hpred.1, hcontra]
        exact hlsid
      intro hid
      exact hne (List.inj_on_of_nodup_map hnodup hq'mem hl hid)
    have hst1 : st ∈ (finishStep (finishLogsLoop (getLogs s q.stepid) s).1
        q.stepid RETRY false).steps := by
      refine finishStep_steps_mem _ _ _ _ st ?_ (fun h => hqne h.symm)
      rw [finishLogsLoop_steps]
      exact hst
    have hl1 : l ∈ (finishStep (finishLogsLoop (getLogs s q.stepid) s).1
        q.stepid RETRY false).logs := by
      rw [finishStep_logs]
      exact hlog1
    have hnodup1 : ((finishStep (finishLogsLoop (getLogs s q.stepid) s).1
        q.stepid RETRY false).logs.map (fun x => x.logid)).Nodup := by
      rw [finishStep_logs, finishLogsLoop_logids]
      exact hnodup
    exact ih _ hst1 hl1 hlsid hnodup1 (fun q' hq' => hq q' (List.mem_cons_of_mem q hq'))

/-- Every event of a step loop is a log finalize or the finalize of one of
the listed steps. -/
theorem finishStepsLoop_trace_events (sts : List StepRecord) (s : Store) :
    ∀ e ∈ (finishStepsLoop sts s).2,
      (∃ lid, e = Ev.finishLog lid)
      ∨ ∃ q ∈ sts, e = Ev.finishStep q.stepid RETRY false := by
  induction sts generalizing s with
  | nil => intro e he; simp [finishStepsLoop] at he
  | cons q rest ih =>
    intro e he
    simp only [finishStepsLoop, List.mem_append, List.mem_cons] at he
    rcases he with he | rfl | he
    · rw [finishLogsLoop_trace] at he
      rcases List.mem_map.mp he with ⟨l', _, rfl⟩
      exact Or.inl ⟨l'.logid, rfl⟩
    · exact Or.inr ⟨q, List.mem_cons_self q rest, rfl⟩
    · rcases ih _ e he with h | ⟨q', hq', rfl⟩
      · exact Or.inl h
      · exact Or.inr ⟨q', List.mem_cons_of_mem q hq', rfl⟩

/-- Trace decomposition inside one build's step loop: the open log's
finalize event occurs, the open step's finalize event occurs after it, and
no finalize event for that step occurs anywhere earlier. -/
theorem finishStepsLoop_decomp (st : StepRecord) (l : LogRecord) :
    ∀ (sts : List StepRecord) (s : Store),
    st ∈ sts →
    (sts.map (fun x => x.stepid)).Nodup →
    l ∈ s.logs → l.complete = false → l.stepid = st.stepid →
    (s.logs.map (fun x => x.logid)).Nodup →
    ∃ Q1 Q2 Q3, (finishStepsLoop sts s).2
        = Q1 ++ (Ev.finishLog l.logid :: (Q2 ++ (Ev.finishStep st.stepid RETRY false :: Q3)))
      ∧ (∀ e ∈ Q1, e ≠ Ev.finishStep st.stepid RETRY false)
      ∧ (∀ e ∈ Q2, e ≠ Ev.finishStep st.stepid RETRY false) := by
  intro sts
  induction sts with
  | nil => intro s h; simp at h
  | cons q rest ih =>
    intro s hst hnodup hl hlc hlsid hnodupL
    by_cases hq : q = st
    · subst hq
      have hlin : l ∈ getLogs s q.stepid := by
        simp only [getLogs]
        refine List.mem_filter.mpr ⟨hl, ?_⟩
        simp [hlsid, hlc]
      rcases List.append_of_mem hlin with ⟨L1, L2, hsplit⟩
      refine ⟨L1.map (fun x => Ev.finishLog x.logid), L2.map (fun x => Ev.finishLog x.logid),
        (finishStepsLoop rest (finishStep (finishLogsLoop (getLogs s q.stepid) s).1
          q.stepid RETRY false)).2, ?_, ?_, ?_⟩
      · simp only [finishStepsLoop]
        rw [finishLogsLoop_trace, hsplit]
        simp [List.append_assoc]
      · intro e he
        rcases List.mem_map.mp he with ⟨l', _, rfl⟩
        simp
      · intro e he
        rcases List.mem_map.mp he with ⟨l', _, rfl⟩
        simp
    · have hst' : st ∈ rest := by
        rcases List.mem_cons.mp hst with h' | h'
        · exact absurd h'.symm hq
        · exact h'
      have hqs : q.stepid ≠ st.stepid := by
        simp only [List.map_cons, List.nodup_cons] at hnodup
        intro h
        exact hnodup.1 (h ▸ List.mem_map_of_mem (fun x => x.stepid) hst')
      have hnodup' : (rest.map (fun x => x.stepid)).Nodup := by
        simp only [List.map_cons, List.nodup_cons] at hnodup
        exact hnodup.2
      have hl1 : l ∈ (finishStep (finishLogsLoop (getLogs s q.stepid) s).1
          q.stepid RETRY false).logs := by
        rw [finishStep_logs]
        refine finishLogsLoop_mem l _ s hl ?_
        intro q' hq'
        simp only [getLogs] at hq'
        rcases List.mem_filter.mp hq' with ⟨hq'mem, hpred⟩
        simp only [Bool.and_eq_true, beq_iff_eq] at hpred
        have hne : q' ≠ l := by
          intro hcontra
          apply hqs
          rw [← hpred.1, hcontra]
          exact hlsid
        intro hid
        exact hne (List.inj_on_of_nodup_map hnodupL hq'mem hl hid)
      have hnodupL1 : ((finishStep (finishLogsLoop (getLogs s q.stepid) s).1
          q.stepid RETRY false).logs.map (fun x => x.logid)).Nodup := by
        rw [finishStep_logs, finishLogsLoop_logids]
        exact hnodupL
      rcases ih _ hst' hnodup' hl1 hlc hlsid hnodupL1 with ⟨Q1, Q2, Q3, heq, h1, h2⟩
      refine ⟨(finishLogsLoop (getLogs s q.stepid) s).2
        ++ (Ev.finishStep q.stepid RETRY false :: Q1), Q2, Q3, ?_, ?_, h2⟩
      · simp only [finishStepsLoop]
        rw [heq]
        simp [List.append_assoc]
      · intro e he
        rcases List.mem_append.mp he with he | he
        · rw [finishLogsLoop_trace] at he
          rcases List.mem_map.mp he with ⟨l', _, rfl⟩
          simp
        · rcases List.mem_cons.mp he with rfl | he
          · intro hcontra
            simp only [Ev.finishStep.injEq] at hcontra
            exact hqs hcontra.1
          · exact h1 e he

/-- Trace decomposition across the build loop: the open log's finalize,
then the open step's finalize, then the build's finalize, with no finalize
event for that step before the log's and none for that build before the
step's. -/
theorem finishBuildsLoop_decomp (b : BuildRecord) (st : StepRecord) (l : LogRecord) :
    ∀ (bs : List BuildRecord) (s : Store),
    b ∈ bs → (bs.map (fun x => x.buildid)).Nodup →
    st ∈ s.steps → st.results = none → st.buildid = b.buildid →
    l ∈ s.logs → l.complete = false → l.stepid = st.stepid →
    (s.steps.map (fun x => x.stepid)).Nodup →
    (s.logs.map (fun x => x.logid)).Nodup →
    ∃ P1 P2 P3 P4, (finishBuildsLoop bs s).2
        = P1 ++ (Ev.finishLog l.logid :: (P2 ++ (Ev.finishStep st.stepid RETRY false
            :: (P3 ++ (Ev.finishBuild b.buildid RETRY :: P4)))))
      ∧ (∀ e ∈ P1, e ≠ Ev.finishStep st.stepid RETRY false
          ∧ e ≠ Ev.finishBuild b.buildid RETRY)
      ∧ (∀ e ∈ P2, e ≠ Ev.finishStep st.stepid RETRY false
          ∧ e ≠ Ev.finishBuild b.buildid RETRY)
      ∧ (∀ e ∈ P3, e ≠ Ev.finishBuild b.buildid RETRY) := by
  intro bs
  induction bs with
  | nil => intro s h; simp at h
  | cons a rest ih =>
    intro s hb hnodupB hst hsto hstb hl hlc hls hnodupS hnodupL
    by_cases ha : a = b
    · subst ha
      have hstin : st ∈ getSteps s a.buildid := by
        simp only [getSteps]
        exact List.mem_filter.mpr ⟨hst, by simp [hstb, hsto]⟩
      have hnodupQ : ((getSteps s a.buildid).map (fun x => x.stepid)).Nodup :=
        List.Nodup.sublist (List.Sublist.map _ (List.filter_sublist _)) hnodupS
      rcases finishStepsLoop_decomp st l (getSteps s a.buildid) s hstin hnodupQ
        hl hlc hls hnodupL with ⟨Q1, Q2, Q3, heq, h1, h2⟩
      have hnofb : ∀ e ∈ (finishStepsLoop (getSteps s a.buildid) s).2,
          e ≠ Ev.finishBuild a.buildid RETRY := by
        intro e he
        rcases finishStepsLoop_trace_events _ _ e he with ⟨lid, rfl⟩ | ⟨q', _, rfl⟩ <;> simp
      have hmem1 : ∀ e ∈ Q1, e ∈ (finishStepsLoop (getSteps s a.buildid) s).2 := by
        intro e he
        rw [heq]
        exact List.mem_append.mpr (Or.inl he)
      have hmem2 : ∀ e ∈ Q2, e ∈ (finishStepsLoop (getSteps s a.buildid) s).2 := by
        intro e he
        rw [heq]
        exact List.mem_append.mpr (Or.inr (List.mem_cons_of_mem _
          (List.mem_append.mpr (Or.inl he))))
      have hmem3 : ∀ e ∈ Q3, e ∈ (finishStepsLoop (getSteps s a.buildid) s).2 := by
        intro e he
        rw [heq]
        exact List.mem_append.mpr (Or.inr (List.mem_cons_of_mem _
          (List.mem_append.mpr (Or.inr (List.mem_cons_of_mem _ he)))))
      refine ⟨Q1, Q2, Q3,
        (finishBuildsLoop rest (finishBuild (finishStepsLoop (getSteps s a.buildid) s).1
          a.buildid RETRY)).2, ?_, ?_, ?_, ?_⟩
      · simp only [finishBuildsLoop]
        rw [heq]
        simp [List.append_assoc]
      · exact fun e he => ⟨h1 e he, hnofb e (hmem1 e he)⟩
      · exact fun e he => ⟨h2 e he, hnofb e (hmem2 e he)⟩
      · exact fun e he => hnofb e (hmem3 e he)
    · have hb' : b ∈ rest := by
        rcases List.mem_cons.mp hb with h' | h'
        · exact absurd h'.symm ha
        · exact h'
      have hab : a.buildid ≠ b.buildid := by
        simp only [List.map_cons, List.nodup_cons] at hnodupB
        intro h
        exact hnodupB.1 (h ▸ List.mem_map_of_mem (fun x => x.buildid) hb')
      have hnodupB' : (rest.map (fun x => x.buildid)).Nodup := by
        simp only [List.map_cons, List.nodup_cons] at hnodupB
        exact hnodupB.2
      have hqsteps : ∀ q ∈ getSteps s a.buildid, q.stepid ≠ st.stepid := by
        intro q hq
        simp only [getSteps] at hq
        rcases List.mem_filter.mp hq with ⟨hqmem, hpred⟩
        simp only [Bool.and_eq_true, beq_iff_eq] at hpred
        have hne : q ≠ st := by
          intro hcontra
          apply hab
          rw [← hpred.1, hcontra, hstb]
        intro hid
        exact hne (List.inj_on_of_nodup_map hnodupS hqmem hst hid)
      have hpres := finishStepsLoop_preserves st l (getSteps s a.buildid) s
        hst hl hls hnodupL hqsteps
      have hst2 : st ∈ (finishBuild (finishStepsLoop (getSteps s a.buildid) s).1
          a.buildid RETRY).steps := by
        rw [finishBuild_steps]
        exact hpres.1
      have hl2 : l ∈ (finishBuild (finishStepsLoop (getSteps s a.buildid) s).1
          a.buildid RETRY).logs := by
        rw [finishBuild_logs]
        exact hpres.2
      have hnodupS2 : ((finishBuild (finishStepsLoop (getSteps s a.buildid) s).1
          a.buildid RETRY).steps.map (fun x => x.stepid)).Nodup := by
        rw [finishBuild_steps, finishStepsLoop_stepids]
        exact hnodupS
      have hnodupL2 : ((finishBuild (finishStepsLoop (getSteps s a.buildid) s).1
          a.buildid RETRY).logs.map (fun x => x.logid)).Nodup := by
        rw [finishBuild_logs, finishStepsLoop_logids]
        exact hnodupL
      rcases ih _ hb' hnodupB' hst2 hsto hstb hl2 hlc hls hnodupS2 hnodupL2
        with ⟨P1, P2, P3, P4, heq, h1, h2, h3⟩
      have hblock : ∀ e ∈ (finishStepsLoop (getSteps s a.buildid) s).2,
          e ≠ Ev.finishStep st.stepid RETRY false ∧ e ≠ Ev.finishBuild b.buildid RETRY := by
        intro e he
        rcases finishStepsLoop_trace_events _ _ e he with ⟨lid, rfl⟩ | ⟨q', hq', rfl⟩
        · exact ⟨by simp, by simp⟩
        · constructor
          · intro hcontra
            simp only [Ev.finishStep.injEq] at hcontra
            exact hqsteps q' hq' hcontra.1
          · simp
      refine ⟨(finishStepsLoop (getSteps s a.buildid) s).2
          ++ (Ev.finishBuild a.buildid RETRY :: P1), P2, P3, P4, ?_, ?_, h2, h3⟩
      · simp only [finishBuildsLoop]
        rw [heq]
        simp [List.append_assoc]
      · intro e he
        rcases List.mem_append.mp he with he | he
        · exact hblock e he
        · rcases List.mem_cons.mp he with rfl | he
          · refine ⟨by simp, ?_⟩
            intro hcontra
            simp only [Ev.finishBuild.injEq] at hcontra
            exact hab hcontra.1
          · exact h1 e he

/-- C3: within a single cascade invocation, for an incomplete build of the
master with an open step carrying an open log, the cascade's chronological
trace decomposes as: a prefix, the log's finalize, a middle part, the
step's finalize (with the `RETRY` result and `hidden = false`), another
part, then the build's finalize (with the `RETRY` result) — where no
finalize event for that step occurs before the log's finalize and no
finalize event for that build occurs before the step's finalize.  So the
step is never finalized while its log is still open and the build is never
finalized while its step is still open.  Store records are assumed to have
distinct primary keys. -/
theorem C3_log_before_step_before_build (s : Store) (mid : Nat) (nm : String)
    (b : BuildRecord) (st : StepRecord) (l : LogRecord)
    (hnodupB : (s.builds.map (fun x => x.buildid)).Nodup)
    (hnodupS : (s.steps.map (fun x => x.stepid)).Nodup)
    (hnodupL : (s.logs.map (fun x => x.logid)).Nodup)
    (hb : b ∈ s.builds) (hbmid : b.masterid = mid) (hbc : b.complete = false)
    (hst : st ∈ s.steps) (hstb : st.buildid = b.buildid) (hsto : st.results = none)
    (hl : l ∈ s.logs) (hls : l.stepid = st.stepid) (hlc : l.complete = false) :
    ∃ P1 P2 P3 P4, (masterDeactivatedHousekeeping s mid nm).2
        = P1 ++ (Ev.finishLog l.logid :: (P2 ++ (Ev.finishStep st.stepid RETRY false
            :: (P3 ++ (Ev.finishBuild b.buildid RETRY :: P4)))))
      ∧ (∀ e ∈ P1, e ≠ Ev.finishStep st.stepid RETRY false
          ∧ e ≠ Ev.finishBuild b.buildid RETRY)
      ∧ (∀ e ∈ P2, e ≠ Ev.finishStep st.stepid RETRY false
          ∧ e ≠ Ev.finishBuild b.buildid RETRY)
      ∧ (∀ e ∈ P3, e ≠ Ev.finishBuild b.buildid RETRY) := by
  have hbin : b ∈ getBuilds s mid := by
    simp only [getBuilds]
    exact List.mem_filter.mpr ⟨hb, by simp [hbmid, hbc]⟩
  have hnodupQ : ((getBuilds s mid).map (fun x => x.buildid)).Nodup :=
    List.Nodup.sublist (List.Sublist.map _ (List.filter_sublist _)) hnodupB
  rcases finishBuildsLoop_decomp b st l (getBuilds s mid) s hbin hnodupQ
    hst hsto hstb hl hlc hls hnodupS hnodupL with ⟨P1, P2, P3, P4, heq, h1, h2, h3⟩
  refine ⟨[Ev.notify "worker" mid, Ev.notify "builder" mid, Ev.notify "scheduler" mid,
      Ev.notify "changesource" mid] ++ P1, P2, P3,
    P4 ++ [Ev.unclaim ((getBuildRequests (finishBuildsLoop (getBuilds s mid) s).1 mid).map
      (fun br => br.buildrequestid))], ?_, ?_, h2, h3⟩
  · rw [hk_trace_shape, heq]
    simp [List.append_assoc]
  · intro e he
    rcases List.mem_append.mp he with he | he
    · simp only [List.mem_cons, List.not_mem_nil, or_false] at he
      rcases he with rfl | rfl | rfl | rfl <;> exact ⟨by simp, by simp⟩
    · exact h1 e he

/-- Witness for C3 at the spec's scenario: master 7 owns build 42 with open
step 100 carrying open log 500. -/
theorem C3_log_before_step_before_build_witness :
    ∃ P1 P2 P3 P4, (masterDeactivatedHousekeeping
        ⟨[], [⟨42, 7, false, none⟩], [⟨100, 42, none, false⟩], [⟨500, 100, false⟩], []⟩
        7 "A").2
        = P1 ++ (Ev.finishLog 500 :: (P2 ++ (Ev.finishStep 100 RETRY false
            :: (P3 ++ (Ev.finishBuild 42 RETRY :: P4)))))
      ∧ (∀ e ∈ P1, e ≠ Ev.finishStep 100 RETRY false ∧ e ≠ Ev.finishBuild 42 RETRY)
      ∧ (∀ e ∈ P2, e ≠ Ev.finishStep 100 RETRY false ∧ e ≠ Ev.finishBuild 42 RETRY)
      ∧ (∀ e ∈ P3, e ≠ Ev.finishBuild 42 RETRY) :=
  C3_log_before_step_before_build
    ⟨[], [⟨42, 7, false, none⟩], [⟨100, 42, none, false⟩], [⟨500, 100, false⟩], []⟩
    7 "A" ⟨42, 7, false, none⟩ ⟨100, 42, none, false⟩ ⟨500, 100, false⟩
    (by decide) (by decide) (by decide) (by decide) rfl rfl
    (by decide) rfl rfl (by decide) rfl rfl

end Buildbot
